import Mathlib

/-!
# escheme: environments, closure invocation and evaluator snapshots

A shallow embedding of `src/eval/eval.cxx` (namespace `escheme`, class `EVAL`).

* A value (`SEXPR`) is a handle.  Objects that this file never mutates (pairs,
  environment links, closures) are represented by their contents; objects it
  mutates (frames, vectors, symbol value cells, the stacks and registers) live
  in an explicit `State` and are referred to by address.
* Every operation is a function of the state.  An operation that can raise
  yields the state reached at the moment of the raise together with the error.
* C `int` quantities that can become negative on some path are `Int`; an index
  outside its array is undefined behaviour in the source and is reported as
  `Error.undefined`.  The `BYTE` counter of `parse_formals` wraps at 256.
* Symbols are interned: a symbol is its name, coded as a number.
-/

namespace escheme

/-! ## Data model -/

/-- The heap values (`SEXPR`) the evaluator core handles.  Symbols are interned, so the
identity test `==` of the source coincides with equality of names. -/
inductive Value where
  | null
  | unbound
  | symbol (name : Nat)
  | fixnum (n : Int)
  | cons (car cdr : Value)
  | vector (addr : Nat)
  | environment (frame : Nat) (base : Value)
  | closure (code benv vars : Value) (numv : Nat) (rargs : Bool)
  | byte_vector (addr : Nat)
  | code (bcodes sexprs : Value)
  deriving DecidableEq, Repr, Inhabited

/-- The sentinel stored in the value cell of an undefined symbol. -/
def symbol_unbound : Value := Value.unbound

/-- Modelled from the spec: the dispatch tags (`EVSTATE`) of the missing header that
`eval.cxx` names; each tag is an enumerator of its own, so differently named tags differ. -/
inductive EVSTATE where
  | EV_APPLICATION | EV_QUOTE | EV_DELAY | EV_SET | EV_DEFINE | EV_IF | EV_COND
  | EV_LAMBDA | EV_BEGIN | EV_LET | EV_LETREC | EV_WHILE | EV_AND | EV_OR
  | EV_ACCESS | EV_DONE
  deriving DecidableEq, Repr, Inhabited

/-- Modelled from the spec: the opcodes (`OP_...`) of the missing header that `eval.cxx`
stores into the bootstrap instruction sequences. -/
inductive OPCODE where
  | OP_MAP_INIT | OP_MAP_APPLY | OP_MAP_RESULT | OP_FOR_INIT | OP_FOR_APPLY | OP_FOR_RESULT
  | OP_APPLY | OP_GOTO_CONT | OP_RTE | OP_RTC | OP_FORCE_VALUE
  deriving DecidableEq, Repr, Inhabited

/-- The root-marking callbacks that can be registered with the memory manager. -/
inductive MARKER where
  | eval_marker
  deriving DecidableEq, Repr, Inhabited

/-- A frame record: `vars`, the slot array (`none` is the null pointer) and the closure
back-reference.  The field `nslots` of the source is the length of the array. -/
structure Frame where
  vars : Value
  slot : Option (List Value)
  closure : Value
  deriving DecidableEq, Repr, Inhabited

/-- The number of slots `frame->nslots`. -/
def Frame.nslots (f : Frame) : Nat :=
  match f.slot with
  | none => 0
  | some a => a.length

/-- The argument stack: its entries (index 0 is the bottom) and the recorded count `argc`. -/
structure ARGSTACK where
  data : List Value
  argc : Nat
  deriving DecidableEq, Repr, Inhabited

/-- The evaluator context: frame store, vector store, byte-vector store, symbol value cells,
the special-form table, the three stacks, the registers, the bootstrap instruction sequences
and the registered markers.  A `FRAME` pointer is an index into `frames`, a vector handle an
index into `vectors`, a byte-vector handle an index into `bvecs` (a byte not yet stored is
`none`); a symbol without an entry in `globals` is unbound, an object without an entry in
`forms` has had no form set. -/
structure State where
  frames : List Frame
  vectors : List (List Value)
  bvecs : List (List (Option OPCODE))
  globals : List (Nat × Value)
  forms : List (Value × EVSTATE)
  regstack : List Value
  argstack : ARGSTACK
  intstack : List Int
  exp : Value
  env : Value
  val : Value
  aux : Value
  unev : Value
  cont : EVSTATE
  next : EVSTATE
  pc : Int
  theGlobalEnv : Value
  map_code : Value
  for_code : Value
  rte_code : Value
  rtc_code : Value
  fep_code : Value
  vector_null : Value
  markers : List MARKER
  deriving DecidableEq, Repr, Inhabited

/-- What an operation can raise. -/
inductive Error where
  /-- The call `ERROR::severe( msg, obj )`. -/
  | severe (msg : String) (obj : Value)
  /-- A failed `guard( obj, predicate )`. -/
  | wrongType (obj : Value)
  /-- Undefined behaviour in the source: an index outside its array, or a field access
  on an object of another kind. -/
  | undefined
  deriving DecidableEq, Repr, Inhabited

/-- A computation over the evaluator context; on a raise the state reached so far is kept. -/
def Eval (α : Type) : Type := State → Except Error α × State

/-- Return without touching the state. -/
def Eval.pure {α : Type} (a : α) : Eval α := fun s => (Except.ok a, s)

/-- Sequencing: the second computation runs only if the first did not raise. -/
def Eval.bind {α β : Type} (x : Eval α) (f : α → Eval β) : Eval β := fun s =>
  match x s with
  | (Except.ok a, s') => f a s'
  | (Except.error e, s') => (Except.error e, s')

instance : Monad Eval where
  pure := Eval.pure
  bind := Eval.bind

/-- Raise an error, keeping the state. -/
def raise {α : Type} (e : Error) : Eval α := fun s => (Except.error e, s)

/-- Lift a read-only computation. -/
def liftExcept {α : Type} (f : State → Except Error α) : Eval α := fun s => (f s, s)

/-- Read a register or another variable of the context. -/
def fetch {α : Type} (f : State → α) : Eval α := fun s => (Except.ok (f s), s)

/-- Assign to a register or another variable of the context. -/
def assign (f : State → State) : Eval Unit := fun s => (Except.ok (), f s)

/-! ## Primitives of the heap value model -/

/-- Modelled from the spec: `anyp` of the missing header, the test `n != null`. -/
def anyp (n : Value) : Bool := n != Value.null

/-- Modelled from the spec: `nullp` of the missing header, the test `n == null`. -/
def nullp (n : Value) : Bool := n == Value.null

/-- Modelled from the spec: `consp` of the missing header, the pair tag test. -/
def consp : Value → Bool
  | Value.cons _ _ => true
  | _ => false

/-- Modelled from the spec: `envp` of the missing header, the environment tag test. -/
def envp : Value → Bool
  | Value.environment _ _ => true
  | _ => false

/-- Modelled from the spec: `symbolp` of the missing header, the symbol tag test. -/
def symbolp : Value → Bool
  | Value.symbol _ => true
  | _ => false

/-- Modelled from the spec: `guard` of the missing header; a value failing the predicate
is rejected at once (section 7: raised immediately, never silently coerced). -/
def guard (n : Value) (p : Value → Bool) : Except Error Value :=
  if p n then Except.ok n else Except.error (Error.wrongType n)

/-- Modelled from the spec: the unchecked accessor `getcar` of the missing header. -/
def getcar : Value → Except Error Value
  | Value.cons a _ => Except.ok a
  | _ => Except.error Error.undefined

/-- Modelled from the spec: the unchecked accessor `getcdr` of the missing header. -/
def getcdr : Value → Except Error Value
  | Value.cons _ d => Except.ok d
  | _ => Except.error Error.undefined

/-- Modelled from the spec: the checked accessor `car` of the missing header (the car of
the empty list is the empty list, any other non-pair is rejected by `guard`). -/
def car (n : Value) : Except Error Value :=
  if anyp n then (guard n consp).bind getcar else Except.ok Value.null

/-- Modelled from the spec: the checked accessor `cdr` of the missing header. -/
def cdr (n : Value) : Except Error Value :=
  if anyp n then (guard n consp).bind getcdr else Except.ok Value.null

/-- Modelled from the spec: the global value cell of a symbol; the newest entry of `globals`
for the name is the content of the cell. -/
def getvalue (s : State) (name : Nat) : Value :=
  match s.globals.find? (fun e => e.1 == name) with
  | some e => e.2
  | none => symbol_unbound

/-- Modelled from the spec: `value` of the missing symbol table, reading the global slot of
a symbol. -/
def value (s : State) (var : Value) : Except Error Value :=
  match var with
  | Value.symbol name => Except.ok (getvalue s name)
  | _ => Except.error (Error.wrongType var)

/-- Modelled from the spec: `set` of the missing symbol table, overwriting the global slot
of a symbol (the new entry hides whatever the cell held). -/
def set (var val : Value) : Eval Unit := fun s =>
  match var with
  | Value.symbol name =>
      (Except.ok (), { s with globals := (name, val) :: s.globals })
  | _ => (Except.error (Error.wrongType var), s)

/-- Modelled from the spec: `setform( n, f )` of the missing header, storing the dispatch
tag of an object (the new entry hides an older one). -/
def setform (n : Value) (f : EVSTATE) : Eval Unit := fun s =>
  (Except.ok (), { s with forms := (n, f) :: s.forms })

/-- Modelled from the spec: the dispatch tag an object carries, if one has been set. -/
def getform (s : State) (n : Value) : Option EVSTATE :=
  match s.forms.find? (fun e => e.1 == n) with
  | some e => some e.2
  | none => none

/-- Modelled from the spec: the unchecked accessor `getenvframe` of the missing header. -/
def getenvframe : Value → Except Error Nat
  | Value.environment f _ => Except.ok f
  | _ => Except.error Error.undefined

/-- Modelled from the spec: the unchecked accessor `getenvbase` of the missing header. -/
def getenvbase : Value → Except Error Value
  | Value.environment _ b => Except.ok b
  | _ => Except.error Error.undefined

/-- Dereference a `FRAME` pointer. -/
def getframe (s : State) (frame : Nat) : Except Error Frame :=
  match s.frames[frame]? with
  | some f => Except.ok f
  | none => Except.error Error.undefined

/-- Modelled from the spec: `frameref( frame, i )` of the missing header, `frame->slot[i]`. -/
def frameref (f : Frame) (i : Int) : Except Error Value :=
  match f.slot with
  | none => Except.error Error.undefined
  | some a =>
      if 0 ≤ i then
        match a[i.toNat]? with
        | some x => Except.ok x
        | none => Except.error Error.undefined
      else Except.error Error.undefined

/-- Modelled from the spec: `frameset( frame, i, v )` of the missing header,
`frame->slot[i] = v`. -/
def frameset (frame : Nat) (i : Int) (v : Value) : Eval Unit := fun s =>
  match s.frames[frame]? with
  | none => (Except.error Error.undefined, s)
  | some f =>
      match f.slot with
      | none => (Except.error Error.undefined, s)
      | some a =>
          if 0 ≤ i ∧ i.toNat < a.length then
            (Except.ok (),
              { s with frames := s.frames.set frame { f with slot := some (a.set i.toNat v) } })
          else (Except.error Error.undefined, s)

/-- Modelled from the spec: `setframeclosure( frame, closure )` of the missing header. -/
def setframeclosure (frame : Nat) (closure : Value) : Eval Unit := fun s =>
  match s.frames[frame]? with
  | none => (Except.error Error.undefined, s)
  | some f => (Except.ok (), { s with frames := s.frames.set frame { f with closure := closure } })

namespace MEMORY

/-- Modelled from the spec: `MEMORY::cons` of the missing allocator. -/
def cons (a d : Value) : Value := Value.cons a d

/-- Modelled from the spec: `MEMORY::fixnum` of the missing allocator, boxing an integer. -/
def fixnum (n : Int) : Value := Value.fixnum n

/-- Modelled from the spec: `MEMORY::environment( nvars, vars, env )` of the missing
allocator: a fresh frame with `nvars` unpopulated (null) slots, variable list `vars` and no
closure yet, linked in front of `env`. -/
def environment (nvars : Nat) (vars env : Value) : Eval Value := fun s =>
  (Except.ok (Value.environment s.frames.length env),
    { s with frames := s.frames ++
        [{ vars := vars,
           slot := if nvars = 0 then none else some (List.replicate nvars Value.null),
           closure := Value.null }] })

/-- Modelled from the spec: `MEMORY::vector( n )` of the missing allocator: a fresh vector
of `n` null elements. -/
def vector (n : Nat) : Eval Value := fun s =>
  (Except.ok (Value.vector s.vectors.length),
    { s with vectors := s.vectors ++ [List.replicate n Value.null] })

/-- Modelled from the spec: `MEMORY::byte_vector( n )` of the missing allocator: a fresh
byte vector of `n` bytes, none of them stored yet. -/
def byte_vector (n : Nat) : Eval Value := fun s =>
  (Except.ok (Value.byte_vector s.bvecs.length),
    { s with bvecs := s.bvecs ++ [List.replicate n none] })

/-- Modelled from the spec: `MEMORY::code( bcodes, sexprs )` of the missing allocator: an
instruction sequence, the pair of its opcode bytes and its literal vector. -/
def code (bcodes sexprs : Value) : Value := Value.code bcodes sexprs

/-- Modelled from the spec: the shared empty vector `MEMORY::vector_null`. -/
def vector_null : Eval Value := fun s => (Except.ok s.vector_null, s)

/-- Modelled from the spec: `MEMORY::register_marker( marker )` of the missing memory
manager. -/
def register_marker (m : MARKER) : Eval Unit := fun s =>
  (Except.ok (), { s with markers := s.markers ++ [m] })

end MEMORY

/-- Modelled from the spec: `bvecset( bv, i, b )` of the missing header. -/
def bvecset (bv : Value) (i : Int) (b : OPCODE) : Eval Unit := fun s =>
  match bv with
  | Value.byte_vector a =>
      match s.bvecs[a]? with
      | none => (Except.error Error.undefined, s)
      | some d =>
          if 0 ≤ i ∧ i.toNat < d.length then
            (Except.ok (), { s with bvecs := s.bvecs.set a (d.set i.toNat (some b)) })
          else (Except.error Error.undefined, s)
  | _ => (Except.error Error.undefined, s)

namespace SYMTAB

/-- Modelled from the spec: interning.  A symbol is identified by its name; the identifier
of a name is an injective code of its characters. -/
def intern (name : String) : Nat :=
  name.data.foldl (fun n c => n * 1114112 + (c.toNat + 1)) 0

/-- Modelled from the spec: the symbol `SYMTAB::enter( name )` yields. -/
def symbol (name : String) : Value := Value.symbol (intern name)

/-- Modelled from the spec: `SYMTAB::enter( name, value )` of the missing symbol table: the
symbol of that name is given the value. -/
def enter (name : String) (v : Value) : Eval Unit := set (symbol name) v

end SYMTAB

/-- Modelled from the spec: the keyword symbol `quote` of the missing symbol table. -/
def symbol_quote : Value := SYMTAB.symbol "quote"

/-- Modelled from the spec: the keyword symbol `delay`. -/
def symbol_delay : Value := SYMTAB.symbol "delay"

/-- Modelled from the spec: the keyword symbol `set!`. -/
def symbol_set : Value := SYMTAB.symbol "set!"

/-- Modelled from the spec: the keyword symbol `define`. -/
def symbol_define : Value := SYMTAB.symbol "define"

/-- Modelled from the spec: the keyword symbol `if`. -/
def symbol_if : Value := SYMTAB.symbol "if"

/-- Modelled from the spec: the keyword symbol `cond`. -/
def symbol_cond : Value := SYMTAB.symbol "cond"

/-- Modelled from the spec: the keyword symbol `lambda`. -/
def symbol_lambda : Value := SYMTAB.symbol "lambda"

/-- Modelled from the spec: the keyword symbol `begin`. -/
def symbol_begin : Value := SYMTAB.symbol "begin"

/-- Modelled from the spec: the keyword symbol `sequence`. -/
def symbol_sequence : Value := SYMTAB.symbol "sequence"

/-- Modelled from the spec: the keyword symbol `let`. -/
def symbol_let : Value := SYMTAB.symbol "let"

/-- Modelled from the spec: the keyword symbol `letrec`. -/
def symbol_letrec : Value := SYMTAB.symbol "letrec"

/-- Modelled from the spec: the keyword symbol `while`. -/
def symbol_while : Value := SYMTAB.symbol "while"

/-- Modelled from the spec: the keyword symbol `and`. -/
def symbol_and : Value := SYMTAB.symbol "and"

/-- Modelled from the spec: the keyword symbol `or`. -/
def symbol_or : Value := SYMTAB.symbol "or"

/-- Modelled from the spec: the keyword symbol `access`. -/
def symbol_access : Value := SYMTAB.symbol "access"

/-- Modelled from the spec: `vectorset( v, i, x )` of the missing header. -/
def vectorset (v : Value) (i : Int) (x : Value) : Eval Unit := fun s =>
  match v with
  | Value.vector a =>
      match s.vectors[a]? with
      | none => (Except.error Error.undefined, s)
      | some d =>
          if 0 ≤ i ∧ i.toNat < d.length then
            (Except.ok (), { s with vectors := s.vectors.set a (d.set i.toNat x) })
          else (Except.error Error.undefined, s)
  | _ => (Except.error Error.undefined, s)

/-! ## The stacks -/

namespace regstack

/-- Modelled from the spec: `regstack.push`. -/
def push (x : Value) : Eval Unit := fun s => (Except.ok (), { s with regstack := s.regstack ++ [x] })

/-- Modelled from the spec: `regstack.top()` read. -/
def top : Eval Value := fun s =>
  match s.regstack.getLast? with
  | some x => (Except.ok x, s)
  | none => (Except.error Error.undefined, s)

/-- Modelled from the spec: assignment through `regstack.top()`. -/
def settop (x : Value) : Eval Unit := fun s =>
  match s.regstack.getLast? with
  | some _ => (Except.ok (), { s with regstack := s.regstack.dropLast ++ [x] })
  | none => (Except.error Error.undefined, s)

/-- Modelled from the spec: `regstack.pop()`. -/
def pop : Eval Value := fun s =>
  match s.regstack.getLast? with
  | some x => (Except.ok x, { s with regstack := s.regstack.dropLast })
  | none => (Except.error Error.undefined, s)

/-- Modelled from the spec: `regstack.getdepth()`. -/
def getdepth : Eval Nat := fun s => (Except.ok s.regstack.length, s)

/-- Modelled from the spec: `regstack[i]`, index 0 being the bottom. -/
def index (i : Int) : Eval Value := fun s =>
  if 0 ≤ i then
    match s.regstack[i.toNat]? with
    | some x => (Except.ok x, s)
    | none => (Except.error Error.undefined, s)
  else (Except.error Error.undefined, s)

end regstack

namespace argstack

/-- Modelled from the spec: `argstack.getargc()`, the recorded argument count. -/
def getargc : Eval Nat := fun s => (Except.ok s.argstack.argc, s)

/-- Modelled from the spec: `argstack.getdepth()`. -/
def getdepth : Eval Nat := fun s => (Except.ok s.argstack.data.length, s)

/-- Modelled from the spec: `argstack.getfirstargindex()`, the index of the first of the
`argc` most recent entries. -/
def getfirstargindex : Eval Int := fun s =>
  (Except.ok ((s.argstack.data.length : Int) - (s.argstack.argc : Int)), s)

/-- Modelled from the spec: `argstack[i]`, index 0 being the bottom. -/
def index (i : Int) : Eval Value := fun s =>
  if 0 ≤ i then
    match s.argstack.data[i.toNat]? with
    | some x => (Except.ok x, s)
    | none => (Except.error Error.undefined, s)
  else (Except.error Error.undefined, s)

/-- Modelled from the spec: `argstack.removeargc()`: the `argc` most recent entries are
dropped and the count is cleared. -/
def removeargc : Eval Unit := fun s =>
  (Except.ok (),
    { s with argstack :=
        { data := s.argstack.data.take (s.argstack.data.length - s.argstack.argc), argc := 0 } })

end argstack

namespace intstack

/-- Modelled from the spec: `intstack.getdepth()`. -/
def getdepth : Eval Nat := fun s => (Except.ok s.intstack.length, s)

/-- Modelled from the spec: `intstack[i]`, index 0 being the bottom. -/
def index (i : Int) : Eval Int := fun s =>
  if 0 ≤ i then
    match s.intstack[i.toNat]? with
    | some x => (Except.ok x, s)
    | none => (Except.error Error.undefined, s)
  else (Except.error Error.undefined, s)

end intstack

namespace ERROR

/-- Modelled from the spec: `ERROR::severe( msg, obj )`, which never returns. -/
def severe {α : Type} (msg : String) (obj : Value) : Eval α := raise (Error.severe msg obj)

end ERROR

/-! ## `EVAL`: environments -/

namespace EVAL

/-- The inner loop of `lookup` and `set_variable_value`:
`for ( int i = 0; anyp(vars); ++i, vars = getcdr(vars) ) if (getcar(vars) == var) ...`,
started at index `i`; yields the index at which the loop body fires, if it does. -/
def scan (var : Value) : Value → Nat → Except Error (Option Nat)
  | Value.null, _ => Except.ok none
  | Value.cons a d, i => if a = var then Except.ok (some i) else scan var d (i + 1)
  | _, _ => Except.error Error.undefined

/-- The function `EVAL::lookup( var, env )`. -/
def lookup (s : State) (var : Value) : Value → Except Error Value
  | Value.null =>
      -- global var
      match value s var with
      | Except.error e => Except.error e
      | Except.ok val =>
          if val = symbol_unbound then Except.error (Error.severe "symbol is unbound" var)
          else Except.ok val
  | Value.environment frame base =>
      match getframe s frame with
      | Except.error e => Except.error e
      | Except.ok f =>
          match scan var f.vars 0 with
          | Except.error e => Except.error e
          | Except.ok (some i) => frameref f i
          | Except.ok none => lookup s var base
  | _ => Except.error Error.undefined

/-- The loop of `EVAL::set_variable_value` over the environment chain, followed by the
global assignment. -/
def set_variable_value_loop (var val : Value) : Value → Eval Unit
  | Value.null =>
      -- global var
      set var val
  | Value.environment frame base => fun s =>
      match getframe s frame with
      | Except.error e => (Except.error e, s)
      | Except.ok f =>
          match scan var f.vars 0 with
          | Except.error e => (Except.error e, s)
          | Except.ok (some i) => frameset frame i val s
          | Except.ok none => set_variable_value_loop var val base s
  | _ => raise Error.undefined

/-- The function `EVAL::set_variable_value( var, val, env )`. -/
def set_variable_value (var val env : Value) : Eval Unit :=
  if anyp env && !envp env then raise (Error.wrongType env)
  else set_variable_value_loop var val env

/-- The by-reference results `vars`, `numv` and `rargs` of `parse_formals`; `numv` and
`rargs` are of type `BYTE`. -/
structure FORMALS where
  vars : Value
  numv : Nat
  rargs : Bool
  deriving DecidableEq, Repr, Inhabited

/-- The list a `ListBuilder` yields for the elements added in order. -/
def list_of : List Value → Value
  | [] => Value.null
  | x :: xs => Value.cons x (list_of xs)

/-- The loop of `EVAL::parse_formals`, run on what is left of `formals` with the current
`numv`, `rargs` and the variables added to `varlist` so far; it yields these three together
with the error, if a `guard` fails.  The counter `numv` is a `BYTE`, so `numv++` wraps at
256. -/
def parse_formals_loop : Value → Nat → Bool → List Value →
    Except Error Unit × Nat × Bool × List Value
  | Value.null, numv, rargs, varlist => (Except.ok (), numv, rargs, varlist)
  | Value.symbol name, numv, _, varlist =>
      -- the rest symbol: rargs = true, formals = null ends the loop
      (Except.ok (), (numv + 1) % 256, true, varlist ++ [Value.symbol name])
  | Value.cons a d, numv, rargs, varlist =>
      match guard a symbolp with
      | Except.error e => (Except.error e, (numv + 1) % 256, rargs, varlist)
      | Except.ok v => parse_formals_loop d ((numv + 1) % 256) rargs (varlist ++ [v])
  | formals, numv, rargs, varlist =>
      -- car( formals ) on a non-pair
      (Except.error (Error.wrongType formals), (numv + 1) % 256, rargs, varlist)

/-- The function `EVAL::parse_formals( formals, vars, numv, rargs )`; `out` holds the
caller's three variables on entry. -/
def parse_formals (formals : Value) (out : FORMALS) : Except Error Unit × FORMALS :=
  match parse_formals_loop formals 0 false [] with
  | (Except.ok (), numv, rargs, varlist) =>
      (Except.ok (), { vars := list_of varlist, numv := numv, rargs := rargs })
  | (Except.error e, numv, rargs, _) =>
      (Except.error e, { vars := out.vars, numv := numv, rargs := rargs })

/-- The helper `arg_error( text, n1, n2, fun )`: the message is
`"%s -- actual=%u, expected=%u"`. -/
def arg_error {α : Type} (text : String) (n1 n2 : Nat) (f : Value) : Eval α :=
  ERROR.severe (text ++ " -- actual=" ++ toString n1 ++ ", expected=" ++ toString n2) f

/-- The loop `for ( int i = 0; i < n; ++i ) frameset( frame, i, argstack[p++] )`, with `k`
iterations left, the next index `i` and the cursor `p`; yields the final `p`. -/
def bind_required (frame : Nat) : Nat → Int → Int → Eval Int
  | 0, _, p => pure p
  | k + 1, i, p => do
      let a ← argstack.index p
      frameset frame i a
      bind_required frame k (i + 1) (p + 1)

/-- The loop `for ( ; i >= p; --i ) regstack.top() = cons( argstack[i], regstack.top() )`
with `k` iterations left. -/
def bind_rest : Nat → Int → Eval Unit
  | 0, _ => pure ()
  | k + 1, i => do
      let a ← argstack.index i
      let t ← regstack.top
      regstack.settop (MEMORY.cons a t)
      bind_rest k (i - 1)

/-- The function `EVAL::extend_env_fun( closure )`. -/
def extend_env_fun (closure : Value) : Eval Value :=
  match closure with
  | Value.closure _ benv vars numv rargs => do
      let nactual : Nat ← argstack.getargc
      let nformal : Nat := numv
      -- create an extended environment
      let e ← MEMORY.environment nformal vars benv
      regstack.push e
      let t ← regstack.top
      let frame ← liftExcept (fun _ => getenvframe t)
      setframeclosure frame closure
      if rargs = false then
        -- case I: no rest args
        if nactual ≠ nformal then
          if nactual < nformal then
            arg_error "too few arguments" nactual nformal closure
          else
            arg_error "too many arguments" nactual nformal closure
        let p : Int ← argstack.getfirstargindex
        -- BIND required
        let _ ← bind_required frame nactual 0 p
      else
        -- case II: rest arg
        let nrequired : Int := (nformal : Int) - 1
        if (nactual : Int) < nrequired then
          arg_error "too few arguments" nactual nrequired.toNat closure
        let p : Int ← argstack.getfirstargindex
        -- BIND required
        let p ← bind_required frame nrequired.toNat 0 p
        -- BIND rest
        regstack.push Value.null
        let i : Int := p + ((nactual : Int) - (nformal : Int))
        -- the loop body runs for i, i-1, ..., p
        bind_rest (i - p + 1).toNat i
        let r ← regstack.pop
        frameset frame nrequired r
      argstack.removeargc
      regstack.pop
  | _ => raise Error.undefined

/-- The loop of `EVAL::extend_env_vars` collecting the variables of the bindings in order
(the `ListBuilder`) and counting them. -/
def collect_vars : Value → Except Error (List Value)
  | Value.null => Except.ok []
  | Value.cons b rest =>
      let v := if consp b then (car b) else Except.ok b
      match v with
      | Except.error e => Except.error e
      | Except.ok v =>
          match collect_vars rest with
          | Except.error e => Except.error e
          | Except.ok vs => Except.ok (v :: vs)
  | b => Except.error (Error.wrongType b)

/-- The function `EVAL::extend_env_vars( bindings, benv )`. -/
def extend_env_vars (bindings benv : Value) : Eval Value :=
  if nullp bindings then pure benv
  else do
    let vars ← liftExcept (fun _ => collect_vars bindings)
    let nvars : Nat := vars.length
    MEMORY.environment nvars (list_of vars) benv

/-- The function `EVAL::append( env, var, val )`. -/
def append (env var val : Value) : Eval Unit := fun s =>
  match getenvframe env with
  | Except.error e => (Except.error e, s)
  | Except.ok frame =>
      match getframe s frame with
      | Except.error e => (Except.error e, s)
      | Except.ok f =>
          -- I. prepend var to vars;  II. add a slot and assign val
          let slot : List Value :=
            match f.slot with
            | some old => val :: old
            | none => [val]
          (Except.ok (),
            { s with frames :=
                s.frames.set frame { f with vars := MEMORY.cons var f.vars, slot := some slot } })

/-- One copying loop of `get_evaluator_state`:
`for ( int i = 0; i < depth; ++i ) vectorset( regstack.top(), i, src[i] )`, with `k`
iterations left and the next index `i`. -/
def copy_stack (src : Int → Eval Value) : Nat → Int → Eval Unit
  | 0, _ => pure ()
  | k + 1, i => do
      let x ← src i
      let v ← regstack.top
      vectorset v i x
      copy_stack src k (i + 1)

/-- The function `EVAL::get_evaluator_state()`. -/
def get_evaluator_state : Eval Value := do
  let rs_depth : Nat ← regstack.getdepth
  let as_depth : Nat ← argstack.getdepth
  let is_depth : Nat ← intstack.getdepth
  let v ← MEMORY.vector rs_depth
  regstack.push v
  copy_stack regstack.index rs_depth 0
  let v ← MEMORY.vector as_depth
  regstack.push v
  copy_stack argstack.index as_depth 0
  let v ← MEMORY.vector is_depth
  regstack.push v
  copy_stack (fun i => do let n ← intstack.index i; pure (MEMORY.fixnum n)) is_depth 0
  let evs ← MEMORY.vector 3
  let x ← regstack.pop
  vectorset evs 2 x
  let x ← regstack.pop
  vectorset evs 1 x
  let x ← regstack.pop
  vectorset evs 0 x
  pure evs

/-- The callback `eval_marker`: the objects it hands to `MEMORY::mark`, in order (a stack is
marked entry by entry). -/
def eval_marker (s : State) : List Value :=
  s.argstack.data ++ s.regstack ++
    [s.exp, s.env, s.aux, s.val, s.unev,
     s.map_code, s.for_code, s.rte_code, s.rtc_code, s.fep_code]

end EVAL

/-- The function `EVAL::initialize()`. -/
def EVAL.initialize : Eval Unit := do
  -- evaluator registers
  assign (fun s => { s with exp := Value.null })
  assign (fun s => { s with env := Value.null })
  assign (fun s => { s with val := Value.null })
  assign (fun s => { s with aux := Value.null })
  assign (fun s => { s with unev := Value.null })
  assign (fun s => { s with cont := EVSTATE.EV_DONE })
  assign (fun s => { s with next := EVSTATE.EV_DONE })
  assign (fun s => { s with theGlobalEnv := Value.null })
  assign (fun s => { s with pc := 0 })
  -- set the special form dispatch value
  setform symbol_quote EVSTATE.EV_QUOTE
  setform symbol_delay EVSTATE.EV_DELAY
  setform symbol_set EVSTATE.EV_SET
  setform symbol_define EVSTATE.EV_DEFINE
  setform symbol_if EVSTATE.EV_IF
  setform symbol_cond EVSTATE.EV_COND
  setform symbol_lambda EVSTATE.EV_LAMBDA
  setform symbol_begin EVSTATE.EV_BEGIN
  setform symbol_sequence EVSTATE.EV_BEGIN
  setform symbol_let EVSTATE.EV_LET
  setform symbol_letrec EVSTATE.EV_LETREC
  setform symbol_while EVSTATE.EV_WHILE
  setform symbol_and EVSTATE.EV_AND
  setform symbol_or EVSTATE.EV_OR
  setform symbol_access EVSTATE.EV_ACCESS
  setform Value.null EVSTATE.EV_APPLICATION
  -- create code fragments
  let map_bcodes ← MEMORY.byte_vector 5
  let for_bcodes ← MEMORY.byte_vector 5
  let rte_bcodes ← MEMORY.byte_vector 1
  let rtc_bcodes ← MEMORY.byte_vector 1
  let fep_bcodes ← MEMORY.byte_vector 2
  bvecset map_bcodes 0 OPCODE.OP_MAP_INIT
  bvecset map_bcodes 1 OPCODE.OP_MAP_APPLY
  bvecset map_bcodes 2 OPCODE.OP_APPLY
  bvecset map_bcodes 3 OPCODE.OP_MAP_RESULT
  bvecset map_bcodes 4 OPCODE.OP_GOTO_CONT
  bvecset for_bcodes 0 OPCODE.OP_FOR_INIT
  bvecset for_bcodes 1 OPCODE.OP_FOR_APPLY
  bvecset for_bcodes 2 OPCODE.OP_APPLY
  bvecset for_bcodes 3 OPCODE.OP_FOR_RESULT
  bvecset for_bcodes 4 OPCODE.OP_GOTO_CONT
  bvecset rte_bcodes 0 OPCODE.OP_RTE
  bvecset rtc_bcodes 0 OPCODE.OP_RTC
  bvecset fep_bcodes 0 OPCODE.OP_FORCE_VALUE
  bvecset fep_bcodes 1 OPCODE.OP_GOTO_CONT
  let vn ← MEMORY.vector_null
  assign (fun s => { s with map_code := MEMORY.code map_bcodes vn })
  let vn ← MEMORY.vector_null
  assign (fun s => { s with for_code := MEMORY.code for_bcodes vn })
  let vn ← MEMORY.vector_null
  assign (fun s => { s with rte_code := MEMORY.code rte_bcodes vn })
  let vn ← MEMORY.vector_null
  assign (fun s => { s with rtc_code := MEMORY.code rtc_bcodes vn })
  let vn ← MEMORY.vector_null
  assign (fun s => { s with fep_code := MEMORY.code fep_bcodes vn })
  let c ← fetch (fun s => s.map_code)
  SYMTAB.enter "%%map-code" c
  let c ← fetch (fun s => s.for_code)
  SYMTAB.enter "%%for-code" c
  let c ← fetch (fun s => s.rte_code)
  SYMTAB.enter "%%rte-code" c
  let c ← fetch (fun s => s.rtc_code)
  SYMTAB.enter "%%rtc-code" c
  let c ← fetch (fun s => s.fep_code)
  SYMTAB.enter "%%fep-code" c
  MEMORY.register_marker MARKER.eval_marker

/-! ## Well-formed environments -/

/-- The list is a proper list: a chain of pairs ending in the empty list. -/
def proper_list : Value → Bool
  | Value.null => true
  | Value.cons _ d => proper_list d
  | _ => false

/-- The number of pairs along the spine of a list. -/
def list_length : Value → Nat
  | Value.cons _ d => list_length d + 1
  | _ => 0

/-- The value occurs as an element of the list. -/
def occurs (var : Value) : Value → Bool
  | Value.cons a d => a == var || occurs var d
  | _ => false

/-- The frame invariant of the data model: `vars` is a proper list and
`len(vars) == nslots`. -/
def frame_ok (f : Frame) : Bool :=
  proper_list f.vars && (list_length f.vars == f.nslots)

/-- A well-formed environment: the global marker, or a link whose frame pointer is live and
satisfies the frame invariant and whose base is well-formed. -/
def well_formed (s : State) : Value → Bool
  | Value.null => true
  | Value.environment frame base =>
      (match s.frames[frame]? with
       | some f => frame_ok f
       | none => false) && well_formed s base
  | _ => false

/-- The variable is named by the variable list of some frame of the chain. -/
def bound_in_frames (s : State) (var : Value) : Value → Bool
  | Value.environment frame base =>
      (match s.frames[frame]? with
       | some f => occurs var f.vars
       | none => false) || bound_in_frames s var base
  | _ => false

/-! ## States and values the statements refer to -/

open EVAL

/-- The frame that `append` leaves at the head of the chain. -/
def appended (f : Frame) (var val : Value) : Frame :=
  { f with vars := MEMORY.cons var f.vars,
           slot := some (match f.slot with
                         | some old => val :: old
                         | none => [val]) }

/-- The state in which `extend_env_fun` tests the arity: the new environment is on top of
`regstack` and its frame carries the closure. -/
def entered (s : State) (closure benv vars : Value) (numv : Nat) : State :=
  { s with
    frames := s.frames ++
      [{ vars := vars,
         slot := if numv = 0 then none else some (List.replicate numv Value.null),
         closure := closure }],
    regstack := s.regstack ++ [Value.environment s.frames.length benv] }

/-- Overwriting `xs.length` consecutive entries of `a` from index `i` on. -/
def fill (a : List Value) (i : Nat) (xs : List Value) : List Value :=
  a.take i ++ xs ++ a.drop (i + xs.length)

/-- The actual arguments: the `argc` most recent entries of `argstack`, oldest first. -/
def actuals (s : State) : List Value :=
  s.argstack.data.drop (s.argstack.data.length - s.argstack.argc)

/-- The state `extend_env_fun` returns in: one new frame, the arguments consumed. -/
def extended (s : State) (f : Frame) : State :=
  { s with
    frames := s.frames ++ [f],
    argstack := { data := s.argstack.data.take (s.argstack.data.length - s.argstack.argc),
                  argc := 0 } }

/-- The state `get_evaluator_state` returns in: four new vectors, nothing else touched. -/
def snapshot (s : State) : State :=
  { s with vectors := s.vectors ++
      [s.regstack, s.argstack.data, s.intstack.map MEMORY.fixnum,
       [Value.vector s.vectors.length, Value.vector (s.vectors.length + 1),
        Value.vector (s.vectors.length + 2)]] }

/-- The elements along the spine of a list. -/
def list_elems : Value → List Value
  | Value.cons a d => a :: list_elems d
  | _ => []

/-- An evaluator context with empty stores and stacks. -/
def initial_state : State :=
  { frames := [], vectors := [[]], bvecs := [], globals := [], forms := [], regstack := [],
    argstack := { data := [], argc := 0 }, intstack := [],
    exp := Value.null, env := Value.null, val := Value.null, aux := Value.null,
    unev := Value.null, cont := EVSTATE.EV_DONE, next := EVSTATE.EV_DONE, pc := 0,
    theGlobalEnv := Value.null,
    map_code := Value.null, for_code := Value.null, rte_code := Value.null,
    rtc_code := Value.null, fep_code := Value.null,
    vector_null := Value.vector 0, markers := [] }

/-- A context holding one frame `(x y)` with slots `10, 20`, and a global value for `z`. -/
def sample_state : State :=
  { initial_state with
    frames := [{ vars := list_of [Value.symbol 1, Value.symbol 2],
                 slot := some [Value.fixnum 10, Value.fixnum 20],
                 closure := Value.null }],
    globals := [(3, Value.fixnum 30)] }

/-- The environment whose only frame is the frame of `sample_state`. -/
def sample_env : Value := Value.environment 0 Value.null

/-- A context with the given actuals pushed and counted on `argstack`. -/
def call_state (args : List Value) : State :=
  { sample_state with
    regstack := [Value.symbol 9],
    argstack := { data := Value.fixnum 0 :: args, argc := args.length } }

/-- The closure `(lambda (x y) ...)` over `sample_env`. -/
def closure_xy : Value :=
  Value.closure Value.null sample_env (list_of [Value.symbol 1, Value.symbol 2]) 2 false

/-- The closure `(lambda (x y . z) ...)` over `sample_env`. -/
def closure_xy_rest : Value :=
  Value.closure Value.null sample_env
    (list_of [Value.symbol 1, Value.symbol 2, Value.symbol 3]) 3 true

/-- The variable a `let` binding names: the binding itself, or its car when it is a pair. -/
def binding_var : Value → Value
  | Value.cons v _ => v
  | b => b

/-- How `frameset` on the frame at `frame` can change the frame store: only that frame
changes, and its variable list, slot count and closure stay. -/
def frames_step (frame : Nat) (fr fr' : List Frame) : Prop :=
  fr'.length = fr.length ∧
  (∀ a : Nat, a ≠ frame → fr'[a]? = fr[a]?) ∧
  (fr'[frame]?).map (fun f => (f.vars, f.nslots, f.closure))
    = (fr[frame]?).map (fun f => (f.vars, f.nslots, f.closure))

/-- What `frameset` on the frame at `frame` can change between two states: nothing but the
frame store, and that as `frames_step` says. -/
def slots_step (frame : Nat) (s s' : State) : Prop :=
  s' = { s with frames := s'.frames } ∧ frames_step frame s.frames s'.frames

/-- What assignments through `regstack.top()` can change between two states: nothing but
the top entry of a non-empty `regstack`. -/
def top_step (s s' : State) : Prop :=
  s' = { s with regstack := s'.regstack } ∧
  s'.regstack.dropLast = s.regstack.dropLast ∧
  s'.regstack.length = s.regstack.length

/-- What a call of `extend_env_fun` leaves behind, whatever its outcome. -/
def call_effect (s : State) (closure benv vars : Value) (numv : Nat)
    (r : Except Error Value × State) : Prop :=
  r.2.frames.length = s.frames.length + 1 ∧
  (∀ a : Nat, a < s.frames.length → r.2.frames[a]? = s.frames[a]?) ∧
  (∃ f, r.2.frames[s.frames.length]? = some f ∧ f.vars = vars ∧ f.nslots = numv ∧
    f.closure = closure) ∧
  (∀ e, r.1 = Except.ok e →
    e = Value.environment s.frames.length benv ∧
    r.2 = { s with
            frames := r.2.frames,
            argstack := { data := s.argstack.data.take (s.argstack.data.length - s.argstack.argc),
                          argc := 0 } })

/-- What the binding part of `extend_env_fun` leaves behind when started in `s0` with
`regstack` equal to `rs ++ [env]`. -/
def tail_effect (n : Nat) (s0 : State) (rs : List Value) (env : Value)
    (r : Except Error Value × State) : Prop :=
  frames_step n s0.frames r.2.frames ∧
  ∀ e, r.1 = Except.ok e →
    e = env ∧
    r.2 = { s0 with
            frames := r.2.frames,
            regstack := rs,
            argstack := { data := s0.argstack.data.take
                            (s0.argstack.data.length - s0.argstack.argc),
                          argc := 0 } }

/-- The entries `EVAL::initialize` adds to the special-form table, newest first. -/
def keyword_table : List (Value × EVSTATE) :=
  [(Value.null, EVSTATE.EV_APPLICATION), (symbol_access, EVSTATE.EV_ACCESS),
   (symbol_or, EVSTATE.EV_OR), (symbol_and, EVSTATE.EV_AND),
   (symbol_while, EVSTATE.EV_WHILE), (symbol_letrec, EVSTATE.EV_LETREC),
   (symbol_let, EVSTATE.EV_LET), (symbol_sequence, EVSTATE.EV_BEGIN),
   (symbol_begin, EVSTATE.EV_BEGIN), (symbol_lambda, EVSTATE.EV_LAMBDA),
   (symbol_cond, EVSTATE.EV_COND), (symbol_if, EVSTATE.EV_IF),
   (symbol_define, EVSTATE.EV_DEFINE), (symbol_set, EVSTATE.EV_SET),
   (symbol_delay, EVSTATE.EV_DELAY), (symbol_quote, EVSTATE.EV_QUOTE)]

/-- The fourteen special-form keywords, `sequence` apart. -/
def keywords : List Value :=
  [symbol_quote, symbol_delay, symbol_set, symbol_define, symbol_if, symbol_cond,
   symbol_lambda, symbol_begin, symbol_let, symbol_letrec, symbol_while, symbol_and,
   symbol_or, symbol_access]

/-- The state `EVAL::initialize` returns in. -/
def initialized (s : State) : State :=
  { s with
    exp := Value.null, env := Value.null, val := Value.null, aux := Value.null,
    unev := Value.null, cont := EVSTATE.EV_DONE, next := EVSTATE.EV_DONE,
    theGlobalEnv := Value.null, pc := 0,
    forms := keyword_table ++ s.forms,
    bvecs := s.bvecs ++
      [[some OPCODE.OP_MAP_INIT, some OPCODE.OP_MAP_APPLY, some OPCODE.OP_APPLY,
        some OPCODE.OP_MAP_RESULT, some OPCODE.OP_GOTO_CONT],
       [some OPCODE.OP_FOR_INIT, some OPCODE.OP_FOR_APPLY, some OPCODE.OP_APPLY,
        some OPCODE.OP_FOR_RESULT, some OPCODE.OP_GOTO_CONT],
       [some OPCODE.OP_RTE], [some OPCODE.OP_RTC],
       [some OPCODE.OP_FORCE_VALUE, some OPCODE.OP_GOTO_CONT]],
    map_code := Value.code (Value.byte_vector s.bvecs.length) s.vector_null,
    for_code := Value.code (Value.byte_vector (s.bvecs.length + 1)) s.vector_null,
    rte_code := Value.code (Value.byte_vector (s.bvecs.length + 2)) s.vector_null,
    rtc_code := Value.code (Value.byte_vector (s.bvecs.length + 3)) s.vector_null,
    fep_code := Value.code (Value.byte_vector (s.bvecs.length + 4)) s.vector_null,
    globals :=
      [(SYMTAB.intern "%%fep-code",
          Value.code (Value.byte_vector (s.bvecs.length + 4)) s.vector_null),
       (SYMTAB.intern "%%rtc-code",
          Value.code (Value.byte_vector (s.bvecs.length + 3)) s.vector_null),
       (SYMTAB.intern "%%rte-code",
          Value.code (Value.byte_vector (s.bvecs.length + 2)) s.vector_null),
       (SYMTAB.intern "%%for-code",
          Value.code (Value.byte_vector (s.bvecs.length + 1)) s.vector_null),
       (SYMTAB.intern "%%map-code",
          Value.code (Value.byte_vector s.bvecs.length) s.vector_null)] ++ s.globals,
    markers := s.markers ++ [MARKER.eval_marker] }

/-- Following the words of the specification: the first frame of the chain, walking
outward, whose variable list names `var`, with the index of the first occurrence of `var`
in that list. -/
def innermost_binding (s : State) (var : Value) : Value → Option (Nat × Nat)
  | Value.environment frame base =>
      match s.frames[frame]? with
      | some f =>
          if var ∈ list_elems f.vars then some (frame, (list_elems f.vars).indexOf var)
          else innermost_binding s var base
      | none => none
  | _ => none

/-- A context in which `x` is bound in two frames and globally. -/
def shadow_state : State :=
  { initial_state with
    frames := [{ vars := list_of [Value.symbol 1, Value.symbol 2],
                 slot := some [Value.fixnum 10, Value.fixnum 20],
                 closure := Value.null },
               { vars := list_of [Value.symbol 3, Value.symbol 1, Value.symbol 1],
                 slot := some [Value.fixnum 30, Value.fixnum 31, Value.fixnum 32],
                 closure := Value.null }],
    globals := [(1, Value.fixnum 99)] }

/-- The chain of `shadow_state`: frame 1 in front of frame 0. -/
def shadow_env : Value := Value.environment 1 (Value.environment 0 Value.null)

/-- The frame invariant of the data model as the specification words it:
`len(vars) == nslots` (`frame_ok` asks in addition that `vars` be a proper list). -/
def frame_invariant (f : Frame) : Bool := list_length f.vars == f.nslots

/-- The list with the elements `xs` whose last cdr is `tail`: a proper list when `tail` is
null, a dotted list otherwise. -/
def dotted_list : List Value → Value → Value
  | [], tail => tail
  | x :: xs, tail => Value.cons x (dotted_list xs tail)

/-- A formal list of 256 distinct symbols. -/
def formals_256 : Value := list_of ((List.range 256).map Value.symbol)

/-! ## Sequencing and scanning lemmas -/

@[simp] theorem Eval.pure_run {α : Type} (a : α) (s : State) :
    (Pure.pure a : Eval α) s = (Except.ok a, s) := rfl

@[simp] theorem Eval.bind_run {α β : Type} (x : Eval α) (f : α → Eval β) (s : State) :
    (x >>= f) s = match x s with
      | (Except.ok a, s') => f a s'
      | (Except.error e, s') => (Except.error e, s') := rfl

theorem scan_shift (var : Value) (vars : Value) (i : Nat) :
    scan var vars (i + 1) = (scan var vars i).map (Option.map (· + 1)) := by
  induction vars generalizing i with
  | cons a d _ ihd =>
      simp only [scan]
      split
      · rfl
      · exact ihd (i + 1)
  | _ => rfl

theorem scan_proper (var : Value) (vars : Value) (i : Nat) (h : proper_list vars = true) :
    (scan var vars i = Except.ok none ∧ occurs var vars = false) ∨
    (∃ j, scan var vars i = Except.ok (some j) ∧ i ≤ j ∧ j < i + list_length vars ∧
      occurs var vars = true) := by
  induction vars generalizing i with
  | null => left; simp [scan, occurs]
  | cons a d _ ihd =>
      simp only [proper_list] at h
      by_cases hav : a = var
      · right
        exact ⟨i, by simp [scan, hav], le_refl _, by simp [list_length], by simp [occurs, hav]⟩
      · rcases ihd (i + 1) h with ⟨h1, h2⟩ | ⟨j, h1, h2, h3, h4⟩
        · left; simp [scan, hav, h1, occurs, h2]
        · right
          refine ⟨j, by simp [scan, hav, h1], by omega, by simp [list_length]; omega, ?_⟩
          simp [occurs, h4]
  | _ => simp [proper_list] at h

/-- frameset keeps every variable list. -/
theorem frameset_vars (frame : Nat) (i : Int) (v : Value) (s : State) (a : Nat) :
    ((frameset frame i v s).2.frames[a]?).map Frame.vars = (s.frames[a]?).map Frame.vars := by
  unfold frameset
  split
  · rfl
  · rename_i f hf
    split
    · rfl
    · split
      · simp only [List.getElem?_set]
        split
        · rename_i h; subst h
          split
          · simp [hf]
          · rename_i h2
            simp [List.getElem?_eq_none (Nat.le_of_not_lt h2)]
        · rfl
      · rfl

theorem set_loop_vars (var val : Value) (env : Value) (s : State) (a : Nat) :
    ((set_variable_value_loop var val env s).2.frames[a]?).map Frame.vars
      = (s.frames[a]?).map Frame.vars := by
  induction env generalizing s with
  | null =>
      simp only [set_variable_value_loop, set]
      split <;> rfl
  | environment frame base ih =>
      simp only [set_variable_value_loop]
      split
      · rfl
      · split
        · rfl
        · exact frameset_vars _ _ _ _ _
        · exact ih s
  | _ => rfl

/-- Write-then-read on a well-formed chain. -/
theorem set_loop_then_lookup (v : Nat) (x : Value) (env : Value) (s : State)
    (hwf : well_formed s env = true)
    (hx : bound_in_frames s (Value.symbol v) env = true ∨ x ≠ symbol_unbound) :
    (set_variable_value_loop (Value.symbol v) x env s).1 = Except.ok () ∧
    lookup (set_variable_value_loop (Value.symbol v) x env s).2 (Value.symbol v) env
      = Except.ok x := by
  induction env generalizing s with
  | null =>
      have hx2 : x ≠ symbol_unbound := by
        rcases hx with h | h
        · simp [bound_in_frames] at h
        · exact h
      simp [set_variable_value_loop, set, lookup, value, getvalue, hx2]
  | environment frame base ih =>
      simp only [well_formed, Bool.and_eq_true] at hwf
      obtain ⟨hf, hbase⟩ := hwf
      cases hfr : s.frames[frame]? with
      | none => simp [hfr] at hf
      | some f =>
          simp only [hfr, frame_ok, Bool.and_eq_true, beq_iff_eq] at hf
          obtain ⟨hp, hlen⟩ := hf
          simp only [set_variable_value_loop, getframe, hfr]
          rcases scan_proper (Value.symbol v) f.vars 0 hp with ⟨h1, h2⟩ | ⟨j, h1, _, h3, _⟩
          · -- not in this frame
            have hx2 : bound_in_frames s (Value.symbol v) base = true ∨ x ≠ symbol_unbound := by
              rcases hx with h | h
              · left; simpa [bound_in_frames, hfr, h2] using h
              · right; exact h
            obtain ⟨ih1, ih2⟩ := ih s hbase hx2
            simp only [h1]
            refine ⟨ih1, ?_⟩
            have hv := set_loop_vars (Value.symbol v) x base s frame
            simp only [hfr, Option.map_some'] at hv
            cases hfr2 : (set_variable_value_loop (Value.symbol v) x base s).2.frames[frame]? with
            | none => simp [hfr2] at hv
            | some f2 =>
                simp only [hfr2, Option.map_some', Option.some.injEq] at hv
                simp only [lookup, getframe, hfr2, hv, h1]
                exact ih2
          · -- found at index j
            simp only [h1]
            cases hs : f.slot with
            | none => simp [Frame.nslots, hs] at hlen; omega
            | some a =>
                simp only [Frame.nslots, hs] at hlen
                have hj : j < a.length := by omega
                have hlt : frame < s.frames.length := by
                  rcases Nat.lt_or_ge frame s.frames.length with h | h
                  · exact h
                  · simp [List.getElem?_eq_none h] at hfr
                simp [frameset, hfr, hs, hj, lookup, getframe, hlt, h1, frameref]
  | _ => simp [well_formed] at hwf

theorem append_run (frame : Nat) (base var val : Value) (s : State) (f : Frame)
    (hf : s.frames[frame]? = some f) :
    append (Value.environment frame base) var val s
      = (Except.ok (), { s with frames := s.frames.set frame (appended f var val) }) := by
  cases hs : f.slot <;> simp [append, getenvframe, getframe, hf, appended, hs]

theorem frameref_appended (f : Frame) (var val : Value) (j : Nat) :
    frameref (appended f var val) ((j + 1 : Nat) : Int) = frameref f (j : Int) := by
  cases hs : f.slot with
  | none => simp [frameref, appended, hs]
  | some a =>
      simp only [frameref, appended, hs]
      have h1 : (0 : Int) ≤ ((j + 1 : Nat) : Int) := Int.ofNat_nonneg _
      have h2 : (0 : Int) ≤ (j : Int) := Int.ofNat_nonneg _
      simp only [h1, h2, if_true, Int.toNat_ofNat, List.getElem?_cons_succ]

theorem append_keeps_other_lookups (s : State) (frame : Nat) (f : Frame) (v w : Nat) (x : Value)
    (hf : s.frames[frame]? = some f) (hvw : w ≠ v) (e : Value) :
    lookup { s with frames := s.frames.set frame (appended f (Value.symbol v) x) }
        (Value.symbol w) e
      = lookup s (Value.symbol w) e := by
  have hlt : frame < s.frames.length := by
    rcases Nat.lt_or_ge frame s.frames.length with h | h
    · exact h
    · simp [List.getElem?_eq_none h] at hf
  induction e with
  | null => simp [lookup, value, getvalue]
  | environment a base ih =>
      by_cases ha : a = frame
      · subst ha
        have hne : ¬ (Value.symbol v = Value.symbol w) := by
          intro h; injection h with h; exact hvw h.symm
        simp only [lookup, getframe, List.getElem?_set_self hlt, hf]
        have hsc : scan (Value.symbol w) (appended f (Value.symbol v) x).vars 0
            = (scan (Value.symbol w) f.vars 0).map (Option.map (· + 1)) := by
          simp only [appended, MEMORY.cons, scan, hne, if_false]
          exact scan_shift _ _ 0
        rw [hsc]
        cases hs : scan (Value.symbol w) f.vars 0 with
        | error err => rfl
        | ok r =>
            cases r with
            | none => simpa [Except.map] using ih
            | some j => simpa [Except.map] using frameref_appended f (Value.symbol v) x j
      · have hne : frame ≠ a := fun h => ha h.symm
        simp only [lookup, getframe, List.getElem?_set_ne hne, ih]
  | _ => simp [lookup]

@[simp] theorem raise_run {α : Type} (e : Error) (s : State) :
    (raise e : Eval α) s = (Except.error e, s) := rfl

theorem extend_env_fun_fixed_error (s : State) (code benv vars : Value) (numv : Nat)
    (h : s.argstack.argc ≠ numv) :
    extend_env_fun (Value.closure code benv vars numv false) s
      = (Except.error (Error.severe
          ((if s.argstack.argc < numv then "too few arguments" else "too many arguments")
            ++ " -- actual=" ++ toString s.argstack.argc ++ ", expected=" ++ toString numv)
          (Value.closure code benv vars numv false)),
         entered s (Value.closure code benv vars numv false) benv vars numv) := by
  simp only [extend_env_fun, argstack.getargc, MEMORY.environment, regstack.push, regstack.top,
    liftExcept, getenvframe, setframeclosure, arg_error, ERROR.severe, entered,
    Eval.bind_run, Eval.pure_run, List.getLast?_append, List.getLast?_singleton]
  simp [h]
  split <;> simp

theorem fill_set (a : List Value) (i : Nat) (x : Value) (xs : List Value) (h : i < a.length) :
    fill (a.set i x) (i + 1) xs = fill a i (x :: xs) := by
  induction a generalizing i with
  | nil => simp at h
  | cons hd tl ih =>
      cases i with
      | zero =>
          simp only [fill, List.set_cons_zero, List.take_succ_cons, List.take_zero,
            List.length_cons, List.nil_append, List.cons_append, Nat.zero_add]
          rw [Nat.add_comm 1 xs.length, List.drop_succ_cons, List.drop_succ_cons]
      | succ j =>
          have hj : j < tl.length := by simpa using h
          have := ih j hj
          simp only [fill, List.length_cons] at this ⊢
          have e1 : j + 1 + 1 + xs.length = (j + 1 + xs.length) + 1 := by omega
          have e2 : j + 1 + (xs.length + 1) = (j + (xs.length + 1)) + 1 := by omega
          rw [e1, e2]
          simp only [List.set_cons_succ, List.take_succ_cons, List.drop_succ_cons,
            List.cons_append]
          rw [this]

theorem set_same {α : Type} (l : List α) (i : Nat) (x : α) (h : l[i]? = some x) :
    l.set i x = l := by
  apply List.ext_getElem?
  intro j
  rw [List.getElem?_set]
  split
  · rename_i hij
    subst hij
    split
    · exact h.symm
    · rename_i hlt
      exact (List.getElem?_eq_none (Nat.le_of_not_lt hlt)).symm
  · rfl

theorem bind_required_run (frame : Nat) (k : Nat) :
    ∀ (i q : Nat) (s : State) (f : Frame) (a : List Value),
      s.frames[frame]? = some f → f.slot = some a → i + k ≤ a.length →
      q + k ≤ s.argstack.data.length →
      bind_required frame k (i : Int) (q : Int) s
        = (Except.ok ((q + k : Nat) : Int),
           { s with frames := (s.frames.set frame
               { f with slot := some (fill a i ((s.argstack.data.drop q).take k)) }) }) := by
  induction k with
  | zero =>
      intro i q s f a hf hs _ _
      simp only [bind_required, Eval.pure_run, fill, List.take_zero, List.append_nil,
        List.length_nil, Nat.add_zero, List.take_append_drop]
      have : s.frames.set frame { f with slot := some a } = s.frames := by
        rw [← hs]
        exact set_same _ _ _ hf
      rw [this]
  | succ k ih =>
      intro i q s f a hf hs hi hq
      have hlt : frame < s.frames.length := by
        rcases Nat.lt_or_ge frame s.frames.length with h | h
        · exact h
        · simp [List.getElem?_eq_none h] at hf
      have hq1 : q < s.argstack.data.length := by omega
      have hi1 : i < a.length := by omega
      simp only [bind_required, Eval.bind_run, argstack.index, frameset]
      simp only [Int.ofNat_nonneg, if_true, Int.toNat_ofNat, List.getElem?_eq_getElem hq1, hf, hs,
        hi1, and_self]
      have e1 : ((i : Int) + 1) = ((i + 1 : Nat) : Int) := by push_cast; rfl
      have e2 : ((q : Int) + 1) = ((q + 1 : Nat) : Int) := by push_cast; rfl
      rw [e1, e2]
      rw [ih (i + 1) (q + 1) _ { f with slot := some (a.set i s.argstack.data[q]) }
        (a.set i s.argstack.data[q]) (by simp [List.getElem?_set_self hlt]) rfl
        (by simp; omega) (by simp; omega)]
      simp only [List.set_set, fill_set _ _ _ _ hi1]
      have e3 : q + 1 + k = q + (k + 1) := by omega
      have e4 : s.argstack.data[q] :: List.take k (List.drop (q + 1) s.argstack.data)
          = List.take (k + 1) (List.drop q s.argstack.data) := by
        rw [List.drop_eq_getElem_cons hq1]
        rfl
      rw [e3, e4]

theorem bind_rest_run (k : Nat) :
    ∀ (q : Nat) (s : State) (rs : List Value) (t : Value),
      s.regstack = rs ++ [t] → q + k ≤ s.argstack.data.length →
      bind_rest k (((q + k : Nat) : Int) - 1) s
        = (Except.ok (),
           { s with regstack :=
               rs ++ [((s.argstack.data.drop q).take k).foldr Value.cons t] }) := by
  induction k with
  | zero =>
      intro q s rs t hr _
      simp only [bind_rest, Eval.pure_run, List.take_zero, List.foldr_nil]
      rw [← hr]
  | succ k ih =>
      intro q s rs t hr hq
      have hq1 : q + k < s.argstack.data.length := by omega
      have e1 : (((q + (k + 1) : Nat) : Int) - 1) = ((q + k : Nat) : Int) := by push_cast; ring
      rw [e1]
      simp only [bind_rest, Eval.bind_run, argstack.index, regstack.top, regstack.settop,
        Int.ofNat_nonneg, if_true, Int.toNat_ofNat, List.getElem?_eq_getElem hq1, hr,
        List.getLast?_concat, List.dropLast_concat, MEMORY.cons]
      rw [ih q _ rs _ rfl (by simpa using Nat.le_of_lt hq1)]
      have e2 : List.take (k + 1) (List.drop q s.argstack.data)
          = List.take k (List.drop q s.argstack.data) ++ [s.argstack.data[q + k]] := by
        rw [List.take_succ]
        have : (List.drop q s.argstack.data)[k]? = some s.argstack.data[q + k] := by
          rw [List.getElem?_drop, List.getElem?_eq_getElem hq1]
        rw [this]
        rfl
      simp only [e2, List.foldr_append, List.foldr_cons, List.foldr_nil]

theorem list_of_eq_foldr (xs : List Value) : list_of xs = xs.foldr Value.cons Value.null := by
  induction xs with
  | nil => rfl
  | cons x xs ih => simp [list_of, ih]

theorem extend_env_fun_fixed_run (s : State) (code benv vars : Value) (numv : Nat)
    (h : s.argstack.argc = numv) (hd : s.argstack.argc ≤ s.argstack.data.length) :
    extend_env_fun (Value.closure code benv vars numv false) s
      = (Except.ok (Value.environment s.frames.length benv),
         extended s { vars := vars,
                      slot := if numv = 0 then none else some (actuals s),
                      closure := Value.closure code benv vars numv false }) := by
  subst h
  have hp : ((s.argstack.data.length : Int) - (s.argstack.argc : Int))
      = ((s.argstack.data.length - s.argstack.argc : Nat) : Int) := by
    rw [Int.ofNat_sub hd]
  simp only [extend_env_fun, argstack.getargc, MEMORY.environment, regstack.push, regstack.top,
    liftExcept, getenvframe, setframeclosure, argstack.getfirstargindex,
    Eval.bind_run, Eval.pure_run, List.getLast?_concat, ne_eq, not_true_eq_false, if_false,
    if_true, List.getElem?_concat_length, hp]
  by_cases h0 : s.argstack.argc = 0
  · simp [h0, bind_required, argstack.removeargc, regstack.pop, extended]
  · have hz : ((0 : Nat) : Int) = 0 := rfl
    rw [← hz, bind_required_run s.frames.length s.argstack.argc 0
      (s.argstack.data.length - s.argstack.argc) _
      { vars := vars, slot := some (List.replicate s.argstack.argc Value.null),
        closure := Value.closure code benv vars s.argstack.argc false }
      (List.replicate s.argstack.argc Value.null)
      (by simp [h0]) rfl (by simp) (by simp; omega)]
    simp [h0, argstack.removeargc, regstack.pop, extended, actuals, fill]
    have : List.take s.argstack.argc (List.drop (s.argstack.data.length - s.argstack.argc) s.argstack.data)
        = List.drop (s.argstack.data.length - s.argstack.argc) s.argstack.data := by
      apply List.take_of_length_le
      simp
      omega
    rw [this]
    have e : s.argstack.argc - min s.argstack.argc
        (s.argstack.data.length - (s.argstack.data.length - s.argstack.argc)) = 0 := by omega
    rw [e]
    simp

theorem extend_env_fun_rest_error (s : State) (code benv vars : Value) (numv : Nat)
    (h : s.argstack.argc < numv - 1) :
    extend_env_fun (Value.closure code benv vars numv true) s
      = (Except.error (Error.severe
          ("too few arguments -- actual=" ++ toString s.argstack.argc
            ++ ", expected=" ++ toString (numv - 1))
          (Value.closure code benv vars numv true)),
         entered s (Value.closure code benv vars numv true) benv vars numv) := by
  have h1 : (s.argstack.argc : Int) < (numv : Int) - 1 := by omega
  have h2 : ((numv : Int) - 1).toNat = numv - 1 := by omega
  simp only [extend_env_fun, argstack.getargc, MEMORY.environment, regstack.push, regstack.top,
    liftExcept, getenvframe, setframeclosure, arg_error, ERROR.severe, entered,
    Eval.bind_run, Eval.pure_run, List.getLast?_concat, List.getElem?_concat_length,
    h1, h2, if_true, raise_run]
  simp

theorem set_concat_length {α : Type} (l : List α) (x y : α) :
    (l ++ [x]).set l.length y = l ++ [y] := by
  rw [List.set_append_right _ _ (Nat.le_refl _)]
  simp

theorem set_concat_of_length {α : Type} (l : List α) (x y : α) (m : Nat) (h : l.length = m) :
    (l ++ [x]).set m y = l ++ [y] := by
  subst h
  exact set_concat_length l x y

theorem extend_env_fun_rest_run (s : State) (code benv vars : Value) (numv : Nat)
    (hn : 1 ≤ numv) (ha : numv - 1 ≤ s.argstack.argc)
    (hd : s.argstack.argc ≤ s.argstack.data.length) :
    extend_env_fun (Value.closure code benv vars numv true) s
      = (Except.ok (Value.environment s.frames.length benv),
         extended s { vars := vars,
                      slot := some ((actuals s).take (numv - 1)
                                ++ [list_of ((actuals s).drop (numv - 1))]),
                      closure := Value.closure code benv vars numv true }) := by
  obtain ⟨m, rfl⟩ : ∃ m, numv = m + 1 := ⟨numv - 1, by omega⟩
  simp only [Nat.add_sub_cancel] at ha ⊢
  have hp : ((s.argstack.data.length : Int) - (s.argstack.argc : Int))
      = ((s.argstack.data.length - s.argstack.argc : Nat) : Int) := by
    rw [Int.ofNat_sub hd]
  have h1 : ¬ ((s.argstack.argc : Int) < ((m + 1 : Nat) : Int) - 1) := by omega
  have h2 : (((m + 1 : Nat) : Int) - 1).toNat = m := by omega
  have h3 : (((m + 1 : Nat) : Int) - 1) = (m : Int) := by omega
  have hz : ((0 : Nat) : Int) = 0 := rfl
  simp only [extend_env_fun, argstack.getargc, MEMORY.environment, regstack.push, regstack.top,
    liftExcept, getenvframe, setframeclosure, argstack.getfirstargindex,
    Eval.bind_run, Eval.pure_run, List.getLast?_concat, List.getElem?_concat_length,
    h1, h2, if_false, hp, Bool.true_eq_false]
  rw [← hz, bind_required_run s.frames.length m 0
      (s.argstack.data.length - s.argstack.argc) _
      { vars := vars, slot := some (List.replicate (m + 1) Value.null),
        closure := Value.closure code benv vars (m + 1) true }
      (List.replicate (m + 1) Value.null)
      (by simp) rfl (by simp) (by simp; omega)]
  simp only []
  have hi : ((s.argstack.data.length - s.argstack.argc + m : Nat) : Int)
        + ((s.argstack.argc : Int) - ((m + 1 : Nat) : Int))
      = (((s.argstack.data.length - s.argstack.argc + m) + (s.argstack.argc - m) : Nat) : Int) - 1 := by
    omega
  have hk : ((((s.argstack.data.length - s.argstack.argc + m) + (s.argstack.argc - m) : Nat) : Int) - 1
      - ((s.argstack.data.length - s.argstack.argc + m : Nat) : Int) + 1).toNat
      = s.argstack.argc - m := by omega
  rw [hi, hk]
  rw [bind_rest_run (s.argstack.argc - m) (s.argstack.data.length - s.argstack.argc + m) _
    (s.regstack ++ [Value.environment s.frames.length benv]) Value.null rfl (by simp; omega)]
  simp only [regstack.pop, List.getLast?_concat, List.dropLast_concat, frameset, h3,
    argstack.removeargc]
  have hT : (List.take m (actuals s)).length = m := by
    simp only [actuals, List.length_take, List.length_drop]
    omega
  have hfill : fill (List.replicate (m + 1) Value.null) 0 (List.take m (actuals s))
      = List.take m (actuals s) ++ [Value.null] := by
    simp only [fill, hT, List.take_zero, List.nil_append, Nat.zero_add]
    congr 1
    simp [List.drop_replicate]
  have hm : (0 : Int) ≤ (m : Int) ∧ (m : Int).toNat < m + 1 := ⟨Int.ofNat_nonneg _, by simp⟩
  have hrest : List.take (s.argstack.argc - m)
      (List.drop (s.argstack.data.length - s.argstack.argc + m) s.argstack.data)
      = List.drop m (actuals s) := by
    rw [List.take_of_length_le (by simp; omega)]
    simp only [actuals, List.drop_drop]
  have hact : List.drop (s.argstack.data.length - s.argstack.argc) s.argstack.data = actuals s := rfl
  rw [hrest, hact, hfill]
  simp only [set_concat_length, List.set_set, List.getElem?_concat_length,
    List.length_append, List.length_singleton, hT, hm, and_self, if_true, Int.toNat_ofNat,
    set_concat_of_length _ _ _ m hT, List.getLast?_concat, List.dropLast_concat, extended,
    ← list_of_eq_foldr]
  have hlt : m < m + 1 := Nat.lt_succ_self m
  simp only [hlt, and_self, if_true, List.getLast?_concat, List.dropLast_concat]

theorem copy_stack_run (s : State) (src : Int → Eval Value) (xs : List Value) (va : Nat)
    (htop : s.regstack.getLast? = some (Value.vector va))
    (hsrc : ∀ (j : Nat) (vs : List (List Value)) (x : Value), xs[j]? = some x →
      src (j : Int) { s with vectors := vs } = (Except.ok x, { s with vectors := vs }))
    (k : Nat) :
    ∀ (i : Nat) (vs : List (List Value)) (d : List Value),
      vs[va]? = some d → i + k ≤ d.length → i + k ≤ xs.length →
      copy_stack src k (i : Int) { s with vectors := vs }
        = (Except.ok (), { s with vectors := vs.set va (fill d i ((xs.drop i).take k)) }) := by
  induction k with
  | zero =>
      intro i vs d hv _ _
      simp only [copy_stack, Eval.pure_run, fill, List.take_zero, List.append_nil,
        List.length_nil, Nat.add_zero, List.take_append_drop, set_same _ _ _ hv]
  | succ k ih =>
      intro i vs d hv hi hx
      have hx1 : i < xs.length := by omega
      have hi1 : i < d.length := by omega
      have hlt : va < vs.length := by
        rcases Nat.lt_or_ge va vs.length with h | h
        · exact h
        · simp [List.getElem?_eq_none h] at hv
      simp only [copy_stack, Eval.bind_run, hsrc i vs xs[i] (List.getElem?_eq_getElem hx1),
        regstack.top, htop, vectorset, hv, Int.ofNat_nonneg, Int.toNat_ofNat, hi1, and_self,
        if_true]
      have e1 : ((i : Int) + 1) = ((i + 1 : Nat) : Int) := by push_cast; rfl
      rw [e1, ih (i + 1) _ (d.set i xs[i]) (by simp [List.getElem?_set_self hlt])
        (by simp; omega) (by omega)]
      simp only [List.set_set, fill_set _ _ _ _ hi1]
      have e4 : xs[i] :: List.take k (List.drop (i + 1) xs) = List.take (k + 1) (List.drop i xs) := by
        rw [List.drop_eq_getElem_cons hx1]
        rfl
      rw [e4]

theorem fill_whole (xs ys : List Value) :
    fill (List.replicate xs.length Value.null) 0 (List.take xs.length (List.drop 0 (xs ++ ys)))
      = xs := by
  simp [fill]

/-- One copying loop of the snapshot, run on a freshly allocated and pushed vector. -/
theorem copy_step (s : State) (src : Int → Eval Value) (xs : List Value)
    (hsrc : ∀ (j : Nat) (rs : List Value) (vs : List (List Value)) (x : Value),
      xs[j]? = some x →
      src (j : Int) { s with vectors := vs, regstack := s.regstack ++ rs }
        = (Except.ok x, { s with vectors := vs, regstack := s.regstack ++ rs })) :
    copy_stack src xs.length 0
        { s with vectors := s.vectors ++ [List.replicate xs.length Value.null],
                 regstack := s.regstack ++ [Value.vector s.vectors.length] }
      = (Except.ok (), { s with vectors := s.vectors ++ [xs],
                                regstack := s.regstack ++ [Value.vector s.vectors.length] }) := by
  have hz : ((0 : Nat) : Int) = 0 := rfl
  have h := copy_stack_run
    { s with vectors := s.vectors ++ [List.replicate xs.length Value.null],
             regstack := s.regstack ++ [Value.vector s.vectors.length] }
    src xs s.vectors.length (by simp)
    (by intro j vs x hx; exact hsrc j _ vs x hx)
    xs.length 0 (s.vectors ++ [List.replicate xs.length Value.null])
    (List.replicate xs.length Value.null) (by simp) (by simp) (by simp)
  rw [hz] at h
  simp only [] at h
  rw [h]
  have := fill_whole xs []
  simp only [List.append_nil] at this
  simp only [this, set_concat_length]

theorem get_evaluator_state_run (s : State) :
    get_evaluator_state s = (Except.ok (Value.vector (s.vectors.length + 3)), snapshot s) := by
  simp only [get_evaluator_state, Eval.bind_run, Eval.pure_run, regstack.getdepth,
    argstack.getdepth, intstack.getdepth, MEMORY.vector, regstack.push]
  have h1 := copy_step s regstack.index s.regstack (by
    intro j rs vs x hx
    have hj : j < s.regstack.length := by
      rcases Nat.lt_or_ge j s.regstack.length with h | h
      · exact h
      · simp [List.getElem?_eq_none h] at hx
    simp only [regstack.index, Int.ofNat_nonneg, if_true, Int.toNat_ofNat,
      List.getElem?_append_left hj, hx])
  rw [h1]
  simp only []
  have h2 := copy_step
    { s with vectors := s.vectors ++ [s.regstack],
             regstack := s.regstack ++ [Value.vector s.vectors.length] }
    argstack.index s.argstack.data (by
    intro j rs vs x hx
    simp only [argstack.index, Int.ofNat_nonneg, if_true, Int.toNat_ofNat, hx])
  simp only [] at h2
  rw [h2]
  simp only []
  have h3 := copy_step
    { s with vectors := s.vectors ++ [s.regstack] ++ [s.argstack.data],
             regstack := s.regstack ++ [Value.vector s.vectors.length]
               ++ [Value.vector (s.vectors ++ [s.regstack]).length] }
    (fun i => do let n ← intstack.index i; pure (MEMORY.fixnum n))
    (s.intstack.map MEMORY.fixnum) (by
    intro j rs vs x hx
    rw [List.getElem?_map] at hx
    cases hj : s.intstack[j]? with
    | none => simp [hj] at hx
    | some n =>
        simp only [hj, Option.map_some', Option.some.injEq] at hx
        simp only [Eval.bind_run, Eval.pure_run, intstack.index, Int.ofNat_nonneg, if_true,
          Int.toNat_ofNat, hj, hx])
  simp only [List.length_map] at h3
  rw [h3]
  have t2 : Int.toNat 2 = 2 := rfl
  have t1 : Int.toNat 1 = 1 := rfl
  have t0 : Int.toNat 0 = 0 := rfl
  have c2 : (0 : Int) ≤ 2 := by decide
  have c1 : (0 : Int) ≤ 1 := by decide
  have c0 : (0 : Int) ≤ 0 := by decide
  simp only [regstack.pop, vectorset, List.getLast?_concat, List.dropLast_concat,
    List.getElem?_concat_length, List.length_replicate, set_concat_length, List.set_set,
    t2, t1, t0, c2, c1, c0, true_and, Nat.lt_succ_self, Nat.zero_lt_succ, if_true,
    List.length_set, Nat.reduceLT, List.length_cons, List.length_nil]
  simp [snapshot, List.replicate]

theorem list_elems_length (vars : Value) : (list_elems vars).length = list_length vars := by
  induction vars with
  | cons a d _ ihd => simp [list_elems, list_length, ihd]
  | _ => rfl

theorem occurs_iff_mem (w vars : Value) : occurs w vars = true ↔ w ∈ list_elems vars := by
  induction vars with
  | cons a d _ ihd =>
      simp only [occurs, list_elems, Bool.or_eq_true, beq_iff_eq, List.mem_cons, ihd]
      constructor
      · rintro (h | h)
        · exact Or.inl h.symm
        · exact Or.inr h
      · rintro (h | h)
        · exact Or.inl h.symm
        · exact Or.inr h
  | _ => simp [occurs, list_elems]

theorem scan_nth (vars : Value) (hp : proper_list vars = true) (hn : (list_elems vars).Nodup) :
    ∀ (i k : Nat) (v : Value), (list_elems vars)[i]? = some v →
      scan v vars k = Except.ok (some (k + i)) := by
  induction vars with
  | null => intro i k v h; simp [list_elems] at h
  | cons a d _ ihd =>
      intro i k v h
      simp only [list_elems, List.nodup_cons] at hn
      simp only [proper_list] at hp
      cases i with
      | zero =>
          simp only [list_elems, List.getElem?_cons_zero, Option.some.injEq] at h
          simp [scan, h]
      | succ j =>
          simp only [list_elems, List.getElem?_cons_succ] at h
          have hmem : v ∈ list_elems d := List.getElem?_mem h
          have hne : ¬ (a = v) := by
            intro e
            subst e
            exact hn.1 hmem
          simp only [scan, hne, if_false]
          rw [ihd hp hn.2 j (k + 1) v h]
          congr 2
          omega
  | _ => simp [proper_list] at hp

theorem scan_absent (w vars : Value) (k : Nat) (hp : proper_list vars = true)
    (ho : occurs w vars = false) : scan w vars k = Except.ok none := by
  rcases scan_proper w vars k hp with ⟨h1, _⟩ | ⟨j, _, _, _, h4⟩
  · exact h1
  · rw [ho] at h4
    cases h4

/-- Lookup reads only the frames of its chain and the global cells. -/
theorem lookup_frames_append (s s' : State) (w e : Value) (extra : List Frame)
    (hf : s'.frames = s.frames ++ extra) (hg : s'.globals = s.globals)
    (hwf : well_formed s e = true) :
    lookup s' w e = lookup s w e := by
  induction e with
  | null => simp [lookup, value, getvalue, hg]
  | environment a base ih =>
      simp only [well_formed, Bool.and_eq_true] at hwf
      obtain ⟨h1, hbase⟩ := hwf
      have hlt : a < s.frames.length := by
        rcases Nat.lt_or_ge a s.frames.length with h | h
        · exact h
        · simp [List.getElem?_eq_none h] at h1
      simp only [lookup, getframe, hf, List.getElem?_append_left hlt, ih hbase]
  | _ => simp [well_formed] at hwf

theorem lookup_wf_cases (s : State) (v : Nat) (env : Value) (hwf : well_formed s env = true) :
    (bound_in_frames s (Value.symbol v) env = true ∧ ∃ x, lookup s (Value.symbol v) env = Except.ok x) ∨
    (bound_in_frames s (Value.symbol v) env = false ∧
      lookup s (Value.symbol v) env = lookup s (Value.symbol v) Value.null) := by
  induction env with
  | null => right; simp [bound_in_frames]
  | environment frame base ih =>
      simp only [well_formed, Bool.and_eq_true] at hwf
      obtain ⟨hf, hbase⟩ := hwf
      cases hfr : s.frames[frame]? with
      | none => simp [hfr] at hf
      | some f =>
          simp only [hfr, frame_ok, Bool.and_eq_true, beq_iff_eq] at hf
          obtain ⟨hp, hlen⟩ := hf
          rcases scan_proper (Value.symbol v) f.vars 0 hp with ⟨h1, h2⟩ | ⟨j, h1, _, h3, h4⟩
          · rcases ih hbase with ⟨b, x, hx⟩ | ⟨b, hx⟩
            · left
              exact ⟨by simp [bound_in_frames, b], x, by simp [lookup, getframe, hfr, h1, hx]⟩
            · right
              exact ⟨by simp [bound_in_frames, hfr, h2, b], by simp [lookup, getframe, hfr, h1, hx]⟩
          · left
            refine ⟨by simp [bound_in_frames, hfr, h4], ?_⟩
            cases hs : f.slot with
            | none => simp [Frame.nslots, hs] at hlen; omega
            | some a =>
                simp only [Frame.nslots, hs] at hlen
                have hj : j < a.length := by omega
                exact ⟨a[j], by simp [lookup, getframe, hfr, h1, frameref, hs, hj]⟩
  | _ => simp [well_formed] at hwf

/-! ## Footprints, the special-form table and formal lists: lemmas -/

theorem collect_vars_list (bs : List Value) :
    collect_vars (list_of bs) = Except.ok (bs.map binding_var) := by
  induction bs with
  | nil => rfl
  | cons b bs ih =>
      cases b <;> simp [list_of, collect_vars, consp, car, anyp, guard, getcar, ih, binding_var,
        Except.bind]

theorem proper_list_of (xs : List Value) :
    proper_list (list_of xs) = true ∧ list_length (list_of xs) = xs.length ∧
      list_elems (list_of xs) = xs := by
  induction xs with
  | nil => exact ⟨rfl, rfl, rfl⟩
  | cons x xs ih => simp [list_of, proper_list, list_length, list_elems, ih]

theorem extend_env_vars_run (s : State) (bs : List Value) (benv : Value) (hne : bs ≠ []) :
    extend_env_vars (list_of bs) benv s
      = (Except.ok (Value.environment s.frames.length benv),
         { s with frames := s.frames ++
            [{ vars := list_of (bs.map binding_var),
               slot := some (List.replicate bs.length Value.null),
               closure := Value.null }] }) := by
  cases bs with
  | nil => exact absurd rfl hne
  | cons b bs =>
      have hc := collect_vars_list (b :: bs)
      simp only [list_of] at hc
      simp [extend_env_vars, nullp, list_of, liftExcept, hc, MEMORY.environment]

theorem frames_step_refl (frame : Nat) (fr : List Frame) : frames_step frame fr fr :=
  ⟨rfl, fun _ _ => rfl, rfl⟩

theorem frames_step_trans (frame : Nat) (fr fr' fr'' : List Frame)
    (h1 : frames_step frame fr fr') (h2 : frames_step frame fr' fr'') :
    frames_step frame fr fr'' :=
  ⟨h2.1.trans h1.1, fun a ha => (h2.2.1 a ha).trans (h1.2.1 a ha), h2.2.2.trans h1.2.2⟩

theorem slots_step_refl (frame : Nat) (s : State) : slots_step frame s s :=
  ⟨rfl, frames_step_refl _ _⟩

theorem slots_step_trans (frame : Nat) (s s' s'' : State)
    (h1 : slots_step frame s s') (h2 : slots_step frame s' s'') : slots_step frame s s'' := by
  obtain ⟨a1, b1⟩ := h1
  obtain ⟨a2, b2⟩ := h2
  refine ⟨?_, frames_step_trans _ _ _ _ b1 b2⟩
  rw [a2]
  conv => lhs; rw [a1]

theorem frameset_slots_step (frame : Nat) (i : Int) (v : Value) (s : State) :
    slots_step frame s (frameset frame i v s).2 := by
  unfold frameset
  split
  · exact slots_step_refl _ _
  · rename_i f hf
    split
    · exact slots_step_refl _ _
    · rename_i a hs
      split
      · have hlt : frame < s.frames.length := by
          rcases Nat.lt_or_ge frame s.frames.length with h | h
          · exact h
          · simp [List.getElem?_eq_none h] at hf
        refine ⟨rfl, by simp, ?_, ?_⟩
        · intro b hb
          simp only [List.getElem?_set_ne (Ne.symm hb)]
        · simp only [List.getElem?_set_self hlt, hf, Option.map_some', Frame.nslots, hs,
            List.length_set]
      · exact slots_step_refl _ _

theorem argstack_index_state (p : Int) (s : State) : (argstack.index p s).2 = s := by
  unfold argstack.index
  split
  · split <;> rfl
  · rfl

theorem bind_required_slots_step (frame : Nat) (k : Nat) :
    ∀ (i p : Int) (s : State), slots_step frame s (bind_required frame k i p s).2 := by
  induction k with
  | zero => intro i p s; exact slots_step_refl _ _
  | succ k ih =>
      intro i p s
      simp only [bind_required, Eval.bind_run]
      have hs := argstack_index_state p s
      cases hx : argstack.index p s with
      | mk r s1 =>
          rw [hx] at hs
          simp only at hs
          subst hs
          cases r with
          | error e => exact slots_step_refl _ _
          | ok x =>
              simp only []
              have h1 := frameset_slots_step frame i x s1
              cases hfs : frameset frame i x s1 with
              | mk r2 s2 =>
                  rw [hfs] at h1
                  cases r2 with
                  | error e => exact h1
                  | ok u => exact slots_step_trans _ _ _ _ h1 (ih _ _ _)

theorem top_step_refl (s : State) : top_step s s := ⟨rfl, rfl, rfl⟩

theorem top_step_trans (s s' s'' : State) (h1 : top_step s s') (h2 : top_step s' s'') :
    top_step s s'' := by
  obtain ⟨a1, b1, c1⟩ := h1
  obtain ⟨a2, b2, c2⟩ := h2
  refine ⟨?_, b2.trans b1, c2.trans c1⟩
  rw [a2]
  conv => lhs; rw [a1]

theorem bind_rest_top_step (k : Nat) : ∀ (i : Int) (s : State), top_step s (bind_rest k i s).2 := by
  induction k with
  | zero => intro i s; exact top_step_refl _
  | succ k ih =>
      intro i s
      simp only [bind_rest, Eval.bind_run]
      have hs := argstack_index_state i s
      cases hx : argstack.index i s with
      | mk r s1 =>
          rw [hx] at hs
          simp only at hs
          subst hs
          cases r with
          | error e => exact top_step_refl _
          | ok x =>
              cases ht : s1.regstack.getLast? with
              | none =>
                  simp only [regstack.top, ht]
                  exact top_step_refl _
              | some t =>
                  simp only [regstack.top, regstack.settop, MEMORY.cons, ht]
                  refine top_step_trans _ _ _ ?_ (ih _ _)
                  have hne : s1.regstack ≠ [] := by
                    intro h
                    rw [h] at ht
                    cases ht
                  refine ⟨rfl, by simp, ?_⟩
                  simp only [List.length_append, List.length_dropLast, List.length_singleton]
                  have : 0 < s1.regstack.length := List.length_pos.mpr hne
                  omega

theorem entered_frames_step (s : State) (fr : List Frame) (closure benv vars : Value)
    (numv : Nat)
    (h : frames_step s.frames.length (entered s closure benv vars numv).frames fr) :
    fr.length = s.frames.length + 1 ∧
    (∀ a : Nat, a < s.frames.length → fr[a]? = s.frames[a]?) ∧
    (∃ f, fr[s.frames.length]? = some f ∧ f.vars = vars ∧ f.nslots = numv ∧
      f.closure = closure) := by
  obtain ⟨h2, h3, h4⟩ := h
  refine ⟨?_, ?_, ?_⟩
  · rw [h2]; simp [entered]
  · intro a ha
    rw [h3 a (Nat.ne_of_lt ha)]
    simp only [entered, List.getElem?_append_left ha]
  · simp only [entered, List.getElem?_concat_length, Option.map_some'] at h4
    cases hf : fr[s.frames.length]? with
    | none => simp [hf] at h4
    | some f =>
        simp only [hf, Option.map_some', Option.some.injEq, Prod.mk.injEq] at h4
        refine ⟨f, rfl, h4.1, ?_, h4.2.2⟩
        rw [h4.2.1]
        by_cases h0 : numv = 0 <;> simp [Frame.nslots, h0]

theorem entered_slots_step (s s1 : State) (closure benv vars : Value) (numv : Nat)
    (h : slots_step s.frames.length (entered s closure benv vars numv) s1) :
    s1.frames.length = s.frames.length + 1 ∧
    (∀ a : Nat, a < s.frames.length → s1.frames[a]? = s.frames[a]?) ∧
    (∃ f, s1.frames[s.frames.length]? = some f ∧ f.vars = vars ∧ f.nslots = numv ∧
      f.closure = closure) ∧
    s1 = { s with frames := s1.frames,
                  regstack := s.regstack ++ [Value.environment s.frames.length benv] } := by
  obtain ⟨h1, h2⟩ := h
  obtain ⟨a, b, c⟩ := entered_frames_step s s1.frames closure benv vars numv h2
  refine ⟨a, b, c, ?_⟩
  rw [h1]
  simp only [entered]

theorem dropLast_length_concat {α : Type} (l m : List α) (h1 : l.dropLast = m)
    (h2 : l.length = m.length + 1) : ∃ t, l = m ++ [t] := by
  have hne : l ≠ [] := by
    intro h
    rw [h] at h2
    simp at h2
  refine ⟨l.getLast hne, ?_⟩
  rw [← h1]
  exact (List.dropLast_append_getLast hne).symm

/-- The rest-argument part of `extend_env_fun`, from reading the first argument index on. -/
theorem rest_tail_effect (n k1 : Nat) (nreq : Int) (kf : Int → Nat) (jf : Int → Int)
    (s0 : State) (rs : List Value) (env : Value) (h : s0.regstack = rs ++ [env]) :
    tail_effect n s0 rs env
      ((do let p ← argstack.getfirstargindex
           let p ← bind_required n k1 0 p
           regstack.push Value.null
           bind_rest (kf p) (jf p)
           let r ← regstack.pop
           frameset n nreq r
           argstack.removeargc
           regstack.pop : Eval Value) s0) := by
  simp only [Eval.bind_run, argstack.getfirstargindex]
  have hb := bind_required_slots_step n k1 0
    ((s0.argstack.data.length : Int) - (s0.argstack.argc : Int)) s0
  cases hbr : bind_required n k1 0
      ((s0.argstack.data.length : Int) - (s0.argstack.argc : Int)) s0 with
  | mk r s1 =>
      rw [hbr] at hb
      obtain ⟨e1, f1⟩ := hb
      simp only at e1 f1
      clear hbr
      generalize s1.frames = fr1 at e1 f1
      subst e1
      cases r with
      | error err => exact ⟨f1, fun e he => by cases he⟩
      | ok p =>
          simp only [regstack.push]
          have ht := bind_rest_top_step (kf p) (jf p)
            { s0 with frames := fr1, regstack := s0.regstack ++ [Value.null] }
          cases hrr : bind_rest (kf p) (jf p)
              { s0 with frames := fr1, regstack := s0.regstack ++ [Value.null] } with
          | mk r2 s3 =>
              rw [hrr] at ht
              obtain ⟨e3, d3, l3⟩ := ht
              simp only [List.dropLast_concat, List.length_append, List.length_singleton]
                at e3 d3 l3
              clear hrr
              obtain ⟨t, ht⟩ := dropLast_length_concat _ _ d3 l3
              rw [ht] at e3
              clear d3 l3 ht
              subst e3
              cases r2 with
              | error err => exact ⟨f1, fun e he => by cases he⟩
              | ok u =>
                  simp only [regstack.pop, List.getLast?_concat, List.dropLast_concat]
                  have hf := frameset_slots_step n nreq t { s0 with frames := fr1 }
                  cases hfr : frameset n nreq t { s0 with frames := fr1 } with
                  | mk r3 s5 =>
                      rw [hfr] at hf
                      obtain ⟨e5, f5⟩ := hf
                      simp only at e5 f5
                      clear hfr
                      generalize s5.frames = fr5 at e5 f5
                      subst e5
                      have f15 := frames_step_trans _ _ _ _ f1 f5
                      cases r3 with
                      | error err => exact ⟨f15, fun e he => by cases he⟩
                      | ok u2 =>
                          simp only [argstack.removeargc, h, List.getLast?_concat,
                            List.dropLast_concat]
                          exact ⟨f15, fun e he => ⟨by cases he; rfl, rfl⟩⟩

/-- The fixed-arity part of `extend_env_fun`, from reading the first argument index on. -/
theorem fixed_tail_effect (n k1 : Nat) (s0 : State) (rs : List Value) (env : Value)
    (h : s0.regstack = rs ++ [env]) :
    tail_effect n s0 rs env
      ((do let p ← argstack.getfirstargindex
           let _ ← bind_required n k1 0 p
           argstack.removeargc
           regstack.pop : Eval Value) s0) := by
  simp only [Eval.bind_run, argstack.getfirstargindex]
  have hb := bind_required_slots_step n k1 0
    ((s0.argstack.data.length : Int) - (s0.argstack.argc : Int)) s0
  cases hbr : bind_required n k1 0
      ((s0.argstack.data.length : Int) - (s0.argstack.argc : Int)) s0 with
  | mk r s1 =>
      rw [hbr] at hb
      obtain ⟨e1, f1⟩ := hb
      simp only at e1 f1
      clear hbr
      generalize s1.frames = fr1 at e1 f1
      subst e1
      cases r with
      | error err => exact ⟨f1, fun e he => by cases he⟩
      | ok p =>
          simp only [argstack.removeargc, regstack.pop, h, List.getLast?_concat,
            List.dropLast_concat]
          exact ⟨f1, fun e he => ⟨by cases he; rfl, rfl⟩⟩

theorem call_effect_of_tail (s : State) (closure benv vars : Value) (numv : Nat)
    (r : Except Error Value × State)
    (h : tail_effect s.frames.length (entered s closure benv vars numv) s.regstack
      (Value.environment s.frames.length benv) r) :
    call_effect s closure benv vars numv r := by
  obtain ⟨h1, h2⟩ := h
  obtain ⟨a, b, c⟩ := entered_frames_step s r.2.frames closure benv vars numv h1
  refine ⟨a, b, c, ?_⟩
  intro e he
  obtain ⟨h3, h4⟩ := h2 e he
  refine ⟨h3, ?_⟩
  rw [h4]
  simp only [entered]

theorem extend_env_fun_effect (s : State) (code benv vars : Value) (numv : Nat) (rargs : Bool) :
    call_effect s (Value.closure code benv vars numv rargs) benv vars numv
      (extend_env_fun (Value.closure code benv vars numv rargs) s) := by
  have hent : ∀ cl, entered s cl benv vars numv = { s with
      frames := s.frames ++
        [{ vars := vars,
           slot := if numv = 0 then none else some (List.replicate numv Value.null),
           closure := cl }],
      regstack := s.regstack ++ [Value.environment s.frames.length benv] } := fun _ => rfl
  have herr : ∀ (cl : Value) (msg : String),
      call_effect s cl benv vars numv (Except.error (Error.severe msg cl),
        entered s cl benv vars numv) := by
    intro cl msg
    obtain ⟨a, b, c⟩ := entered_frames_step s _ cl benv vars numv (frames_step_refl _ _)
    exact ⟨a, b, c, fun e he => by cases he⟩
  cases rargs with
  | false =>
      simp only [extend_env_fun, argstack.getargc, MEMORY.environment, regstack.push,
        regstack.top, liftExcept, getenvframe, setframeclosure,
        Eval.bind_run, Eval.pure_run, List.getLast?_concat, List.getElem?_concat_length,
        set_concat_length, if_true, arg_error, ERROR.severe, raise_run]
      simp only [← hent]
      by_cases hn : s.argstack.argc = numv
      · simp only [hn, ne_eq, not_true_eq_false, if_false]
        exact call_effect_of_tail _ _ _ _ _ _
          (fixed_tail_effect s.frames.length numv _ s.regstack _ rfl)
      · simp only [hn, ne_eq, not_false_eq_true, if_true]
        split
        · simp only [Eval.bind_run, raise_run]
          exact herr _ _
        · simp only [Eval.bind_run, raise_run]
          exact herr _ _
  | true =>
      simp only [extend_env_fun, argstack.getargc, MEMORY.environment, regstack.push,
        regstack.top, liftExcept, getenvframe, setframeclosure,
        Eval.bind_run, Eval.pure_run, List.getLast?_concat, List.getElem?_concat_length,
        set_concat_length, if_true, arg_error, ERROR.severe, raise_run, Bool.true_eq_false,
        if_false]
      simp only [← hent]
      split
      · simp only [Eval.bind_run, raise_run]
        exact herr _ _
      · exact call_effect_of_tail _ _ _ _ _ _
          (rest_tail_effect s.frames.length _ _
            (fun p => (p + ((s.argstack.argc : Int) - (numv : Int)) - p + 1).toNat)
            (fun p => p + ((s.argstack.argc : Int) - (numv : Int))) _ s.regstack _ rfl)

theorem getElem?_append_add {α : Type} (l e : List α) (k : Nat) :
    (l ++ e)[l.length + k]? = e[k]? := by
  rw [List.getElem?_append_right (Nat.le_add_right _ _), Nat.add_sub_cancel_left]

theorem getElem?_append_length {α : Type} (l e : List α) :
    (l ++ e)[l.length]? = e[0]? := getElem?_append_add l e 0

theorem set_append_add {α : Type} (l e : List α) (k : Nat) (x : α) :
    (l ++ e).set (l.length + k) x = l ++ e.set k x := by
  rw [List.set_append_right _ _ (Nat.le_add_right _ _), Nat.add_sub_cancel_left]

theorem set_append_length {α : Type} (l e : List α) (x : α) :
    (l ++ e).set l.length x = l ++ e.set 0 x := set_append_add l e 0 x

theorem initialize_run (s : State) :
    EVAL.initialize s = (Except.ok (), initialized s) := by
  have t4 : Int.toNat 4 = 4 := rfl
  have t3 : Int.toNat 3 = 3 := rfl
  have t2 : Int.toNat 2 = 2 := rfl
  have t1 : Int.toNat 1 = 1 := rfl
  have t0 : Int.toNat 0 = 0 := rfl
  have c4 : (0 : Int) ≤ 4 := by decide
  have c3 : (0 : Int) ≤ 3 := by decide
  have c2 : (0 : Int) ≤ 2 := by decide
  have c1 : (0 : Int) ≤ 1 := by decide
  have c0 : (0 : Int) ≤ 0 := by decide
  have r5 : List.replicate 5 (none : Option OPCODE) = [none, none, none, none, none] := rfl
  have r2 : List.replicate 2 (none : Option OPCODE) = [none, none] := rfl
  have r1 : List.replicate 1 (none : Option OPCODE) = [none] := rfl
  simp only [ EVAL.initialize, Eval.bind_run, Eval.pure_run, assign, setform, fetch,
    MEMORY.byte_vector, MEMORY.vector_null, MEMORY.code, MEMORY.register_marker, SYMTAB.enter,
    SYMTAB.symbol, set, bvecset, List.append_assoc, List.singleton_append, List.cons_append,
    List.nil_append, List.length_append, List.length_singleton, List.length_cons,
    List.length_nil, getElem?_append_add, getElem?_append_length, set_append_add,
    set_append_length, t4, t3, t2, t1, t0, c4, c3, c2, c1, c0, true_and, r5, r2, r1,
    List.getElem?_cons_zero, List.getElem?_cons_succ, List.set_cons_zero, List.set_cons_succ,
    List.length_set, Nat.zero_lt_succ, Nat.lt_add_one, Nat.reduceLT, Nat.reduceAdd, if_true,
    initialized, keyword_table]

theorem getform_initialized (s : State) (n : Value) (e : Value × EVSTATE)
    (h : keyword_table.find? (fun e => e.1 == n) = some e) :
    getform (initialized s) n = some e.2 := by
  simp only [getform, initialized, List.find?_append, h, Option.or]

theorem scan_indexOf (var vars : Value) (k : Nat) (hp : proper_list vars = true)
    (hm : var ∈ list_elems vars) :
    scan var vars k = Except.ok (some (k + (list_elems vars).indexOf var)) := by
  induction vars generalizing k with
  | null => simp [list_elems] at hm
  | cons a d _ ihd =>
      simp only [proper_list] at hp
      simp only [list_elems, List.mem_cons] at hm
      by_cases hav : a = var
      · simp [scan, hav, list_elems]
      · have hm2 : var ∈ list_elems d := by
          rcases hm with h | h
          · exact absurd h.symm hav
          · exact h
        simp only [scan, hav, if_false, list_elems, List.indexOf_cons_ne _ hav]
        rw [ihd (k + 1) hp hm2]
        congr 2
        omega
  | _ => simp [proper_list] at hp

/-- On a well-formed chain that binds `v`, `lookup` and `set_variable_value` both act on the
slot of the innermost binding. -/
theorem innermost_access (s : State) (v : Nat) (x env : Value)
    (hwf : well_formed s env = true)
    (hb : bound_in_frames s (Value.symbol v) env = true) :
    ∃ (frame i : Nat) (f : Frame) (a : List Value),
      innermost_binding s (Value.symbol v) env = some (frame, i) ∧
      s.frames[frame]? = some f ∧ f.slot = some a ∧ i < a.length ∧
      lookup s (Value.symbol v) env = Except.ok (a.getD i Value.null) ∧
      set_variable_value_loop (Value.symbol v) x env s
        = (Except.ok (),
           { s with frames := (s.frames.set frame { f with slot := some (a.set i x) }) }) := by
  induction env with
  | null => simp [bound_in_frames] at hb
  | environment frame base ih =>
      simp only [well_formed, Bool.and_eq_true] at hwf
      obtain ⟨hf, hbase⟩ := hwf
      cases hfr : s.frames[frame]? with
      | none => simp [hfr] at hf
      | some f =>
          simp only [hfr, frame_ok, Bool.and_eq_true, beq_iff_eq] at hf
          obtain ⟨hp, hlen⟩ := hf
          by_cases hm : Value.symbol v ∈ list_elems f.vars
          · have hsc := scan_indexOf (Value.symbol v) f.vars 0 hp hm
            rw [Nat.zero_add] at hsc
            have hi : (list_elems f.vars).indexOf (Value.symbol v) < list_length f.vars := by
              rw [← list_elems_length]
              exact List.indexOf_lt_length.mpr hm
            cases hs : f.slot with
            | none => simp [Frame.nslots, hs] at hlen; omega
            | some a =>
                simp only [Frame.nslots, hs] at hlen
                have hia : (list_elems f.vars).indexOf (Value.symbol v) < a.length := by omega
                refine ⟨frame, _, f, a, ?_, hfr, hs, hia, ?_, ?_⟩
                · simp [innermost_binding, hfr, hm]
                · simp [lookup, getframe, hfr, hsc, frameref, hs, hia]
                · simp [set_variable_value_loop, getframe, hfr, hsc, frameset, hs, hia]
          · have ho : occurs (Value.symbol v) f.vars = false := by
              cases h : occurs (Value.symbol v) f.vars with
              | false => rfl
              | true => exact absurd ((occurs_iff_mem _ _).mp h) hm
            have hsc := scan_absent (Value.symbol v) f.vars 0 hp ho
            have hb2 : bound_in_frames s (Value.symbol v) base = true := by
              simpa [bound_in_frames, hfr, ho] using hb
            obtain ⟨fr2, i, f2, a, h1, h2, h3, h4, h5, h6⟩ := ih hbase hb2
            refine ⟨fr2, i, f2, a, ?_, h2, h3, h4, ?_, ?_⟩
            · simp [innermost_binding, hfr, hm, h1]
            · simp [lookup, getframe, hfr, hsc, h5]
            · simp [set_variable_value_loop, getframe, hfr, hsc, h6]
  | _ => simp [well_formed] at hwf

/-- On a well-formed chain that does not bind `v`, `set_variable_value` assigns the global
cell. -/
theorem unbound_assign (s : State) (v : Nat) (x env : Value)
    (hwf : well_formed s env = true)
    (hb : bound_in_frames s (Value.symbol v) env = false) :
    set_variable_value_loop (Value.symbol v) x env s
      = (Except.ok (), { s with globals := (v, x) :: s.globals }) := by
  induction env with
  | null => simp [set_variable_value_loop, set]
  | environment frame base ih =>
      simp only [well_formed, Bool.and_eq_true] at hwf
      obtain ⟨hf, hbase⟩ := hwf
      cases hfr : s.frames[frame]? with
      | none => simp [hfr] at hf
      | some f =>
          simp only [hfr, frame_ok, Bool.and_eq_true, beq_iff_eq] at hf
          simp only [bound_in_frames, hfr, Bool.or_eq_false_iff] at hb
          have hsc := scan_absent (Value.symbol v) f.vars 0 hf.1 hb.1
          simp [set_variable_value_loop, getframe, hfr, hsc, ih hbase hb.2]
  | _ => simp [well_formed] at hwf

theorem set_variable_value_wf (s : State) (var val env : Value)
    (hwf : well_formed s env = true) :
    set_variable_value var val env s = set_variable_value_loop var val env s := by
  have hg : (anyp env && !envp env) = false := by
    cases env <;> simp [well_formed] at hwf <;> simp [anyp, envp]
  simp only [set_variable_value, hg, Bool.false_eq_true, if_false]

theorem frames_step_invariant (frame : Nat) (fr fr' : List Frame)
    (h : frames_step frame fr fr') (a : Nat) (f : Frame) (hf : fr[a]? = some f)
    (hi : frame_invariant f = true) :
    ∃ f', fr'[a]? = some f' ∧ frame_invariant f' = true := by
  obtain ⟨_, h2, h3⟩ := h
  by_cases ha : a = frame
  · subst ha
    rw [hf] at h3
    cases hf' : fr'[a]? with
    | none => simp [hf'] at h3
    | some f' =>
        simp only [hf', Option.map_some', Option.some.injEq, Prod.mk.injEq] at h3
        refine ⟨f', rfl, ?_⟩
        simp only [frame_invariant, beq_iff_eq] at hi ⊢
        rw [h3.1, h3.2.1]
        exact hi
  · exact ⟨f, (h2 a ha).trans hf, hi⟩

theorem set_loop_frames (var val : Value) (env : Value) (s : State) (a : Nat) (f : Frame)
    (hf : s.frames[a]? = some f) (hi : frame_invariant f = true) :
    ∃ f', (set_variable_value_loop var val env s).2.frames[a]? = some f' ∧
      frame_invariant f' = true := by
  induction env generalizing s with
  | null =>
      simp only [set_variable_value_loop, set]
      split <;> exact ⟨f, hf, hi⟩
  | environment frame base ih =>
      simp only [set_variable_value_loop]
      split
      · exact ⟨f, hf, hi⟩
      · split
        · exact ⟨f, hf, hi⟩
        · exact frames_step_invariant _ _ _ (frameset_slots_step _ _ _ _).2 a f hf hi
        · exact ih s hf
  | _ => exact ⟨f, hf, hi⟩

theorem extend_env_vars_frames (s : State) (bindings benv : Value) :
    (extend_env_vars bindings benv s).2.frames = s.frames ∨
    ∃ vars : List Value, (extend_env_vars bindings benv s).2.frames
      = s.frames ++ [{ vars := list_of vars,
                       slot := if vars.length = 0 then none
                               else some (List.replicate vars.length Value.null),
                       closure := Value.null }] := by
  by_cases hn : nullp bindings = true
  · left
    simp [extend_env_vars, hn]
  · simp only [extend_env_vars, hn, Bool.false_eq_true, if_false, Eval.bind_run, liftExcept]
    cases hc : collect_vars bindings with
    | error e => left; rfl
    | ok vars => right; exact ⟨vars, rfl⟩

theorem dotted_list_null (xs : List Value) : dotted_list xs Value.null = list_of xs := by
  induction xs with
  | nil => rfl
  | cons x xs ih => simp [dotted_list, list_of, ih]

theorem parse_formals_loop_proper (xs : List Value) (hs : ∀ x ∈ xs, symbolp x = true) :
    ∀ (numv : Nat) (rargs : Bool) (acc : List Value), numv < 256 →
      parse_formals_loop (dotted_list xs Value.null) numv rargs acc
        = (Except.ok (), (numv + xs.length) % 256, rargs, acc ++ xs) := by
  induction xs with
  | nil =>
      intro numv rargs acc hn
      simp [dotted_list, parse_formals_loop, Nat.mod_eq_of_lt hn]
  | cons x xs ih =>
      intro numv rargs acc _
      have hx : symbolp x = true := hs x (List.mem_cons_self _ _)
      have hxs : ∀ y ∈ xs, symbolp y = true := fun y hy => hs y (List.mem_cons_of_mem _ hy)
      simp only [dotted_list, parse_formals_loop, guard, hx, if_true]
      rw [ih hxs _ rargs _ (Nat.mod_lt _ (by decide))]
      have e : ((numv + 1) % 256 + xs.length) % 256 = (numv + (xs.length + 1)) % 256 := by
        omega
      simp only [List.length_cons, e, List.append_assoc, List.singleton_append]

theorem parse_formals_loop_rest (xs : List Value) (r : Nat)
    (hs : ∀ x ∈ xs, symbolp x = true) :
    ∀ (numv : Nat) (rargs : Bool) (acc : List Value),
      parse_formals_loop (dotted_list xs (Value.symbol r)) numv rargs acc
        = (Except.ok (), (numv + xs.length + 1) % 256, true, acc ++ xs ++ [Value.symbol r]) := by
  induction xs with
  | nil =>
      intro numv rargs acc
      simp [dotted_list, parse_formals_loop]
  | cons x xs ih =>
      intro numv rargs acc
      have hx : symbolp x = true := hs x (List.mem_cons_self _ _)
      have hxs : ∀ y ∈ xs, symbolp y = true := fun y hy => hs y (List.mem_cons_of_mem _ hy)
      simp only [dotted_list, parse_formals_loop, guard, hx, if_true]
      rw [ih hxs]
      have e : ((numv + 1) % 256 + xs.length + 1) % 256
          = (numv + (xs.length + 1) + 1) % 256 := by omega
      simp only [List.length_cons, e, List.append_assoc, List.singleton_append,
        List.cons_append, List.nil_append]

/-- What `parse_formals` yields on a proper list of symbols: the list itself, its length
modulo 256, and no rest flag. -/
theorem parse_formals_proper (xs : List Value) (out : FORMALS)
    (hs : ∀ x ∈ xs, symbolp x = true) :
    parse_formals (list_of xs) out
      = (Except.ok (), { vars := list_of xs, numv := xs.length % 256, rargs := false }) := by
  rw [← dotted_list_null]
  simp only [parse_formals, parse_formals_loop_proper xs hs 0 false [] (by decide),
    Nat.zero_add, List.nil_append]
  rw [dotted_list_null]

/-- What `parse_formals` yields on a list of symbols ending in the symbol `r` (a bare symbol
when `xs` is empty): all the symbols in order, their number modulo 256, and the rest flag. -/
theorem parse_formals_rest (xs : List Value) (r : Nat) (out : FORMALS)
    (hs : ∀ x ∈ xs, symbolp x = true) :
    parse_formals (dotted_list xs (Value.symbol r)) out
      = (Except.ok (),
         { vars := list_of (xs ++ [Value.symbol r]), numv := (xs.length + 1) % 256,
           rargs := true }) := by
  simp only [parse_formals, parse_formals_loop_rest xs r hs 0 false [], Nat.zero_add,
    List.nil_append]

theorem argstack_index_neg (p : Int) (s : State) (hp : p < 0) :
    argstack.index p s = (Except.error Error.undefined, s) := by
  have : ¬ (0 ≤ p) := by omega
  simp [argstack.index, this]

/-- A run of the required-argument loop that returns has advanced the cursor by the number
of iterations and, if it ran at all, started at a cursor that is not negative. -/
theorem bind_required_returns (frame : Nat) (k : Nat) :
    ∀ (i p : Int) (s : State) (p' : Int) (s' : State),
      bind_required frame k i p s = (Except.ok p', s') →
      p' = p + (k : Int) ∧ (k = 0 ∨ 0 ≤ p) := by
  induction k with
  | zero =>
      intro i p s p' s' h
      simp only [bind_required, Eval.pure_run, Prod.mk.injEq, Except.ok.injEq] at h
      exact ⟨by simp [h.1], Or.inl rfl⟩
  | succ k ih =>
      intro i p s p' s' h
      by_cases hp : p < 0
      · simp [bind_required, argstack_index_neg p s hp] at h
      · simp only [bind_required, Eval.bind_run] at h
        cases hx : argstack.index p s with
        | mk r s1 =>
            rw [hx] at h
            cases r with
            | error e => simp at h
            | ok x =>
                simp only at h
                cases hfs : frameset frame i x s1 with
                | mk r2 s2 =>
                    rw [hfs] at h
                    cases r2 with
                    | error e => simp at h
                    | ok u =>
                        simp only at h
                        obtain ⟨h1, _⟩ := ih _ _ _ _ _ h
                        refine ⟨?_, Or.inr (by omega)⟩
                        rw [h1]
                        push_cast
                        ring

/-- The rest-argument loop raises when it has more iterations left than entries at and
below its start index. -/
theorem bind_rest_underflow (k : Nat) :
    ∀ (i : Int) (s : State), 0 < k → i + 1 < (k : Int) →
      (bind_rest k i s).1 ≠ Except.ok () := by
  induction k with
  | zero => intro i s h0 _; exact absurd h0 (Nat.lt_irrefl 0)
  | succ k ih =>
      intro i s _ h
      by_cases hi : i < 0
      · simp [bind_rest, argstack_index_neg i s hi]
      · simp only [bind_rest, Eval.bind_run]
        cases hx : argstack.index i s with
        | mk r s1 =>
            cases r with
            | error e => simp
            | ok x =>
                simp only
                cases ht : regstack.top s1 with
                | mk r2 s2 =>
                    cases r2 with
                    | error e => simp
                    | ok t =>
                        simp only
                        cases hst : regstack.settop (MEMORY.cons x t) s2 with
                        | mk r3 s3 =>
                            cases r3 with
                            | error e => simp
                            | ok u =>
                                simp only
                                have hk : 0 < k := by
                                  push_cast at h
                                  omega
                                exact ih (i - 1) s3 hk (by push_cast at h; omega)

theorem fixed_tail_returns (n k1 : Nat) (s0 : State) (e : Value)
    (h : ((do let p ← argstack.getfirstargindex
              let _ ← bind_required n k1 0 p
              argstack.removeargc
              regstack.pop : Eval Value) s0).1 = Except.ok e) :
    k1 = 0 ∨ s0.argstack.argc ≤ s0.argstack.data.length := by
  simp only [Eval.bind_run, argstack.getfirstargindex] at h
  cases hbr : bind_required n k1 0
      ((s0.argstack.data.length : Int) - (s0.argstack.argc : Int)) s0 with
  | mk r s1 =>
      rw [hbr] at h
      cases r with
      | error err => simp at h
      | ok p =>
          rcases (bind_required_returns n k1 _ _ _ _ _ hbr).2 with h0 | h0
          · exact Or.inl h0
          · exact Or.inr (by omega)

theorem rest_tail_returns (n k1 : Nat) (nreq : Int) (kf : Int → Nat) (jf : Int → Int)
    (s0 : State) (e : Value)
    (h : ((do let p ← argstack.getfirstargindex
              let p ← bind_required n k1 0 p
              regstack.push Value.null
              bind_rest (kf p) (jf p)
              let r ← regstack.pop
              frameset n nreq r
              argstack.removeargc
              regstack.pop : Eval Value) s0).1 = Except.ok e) :
    (k1 = 0 ∨ s0.argstack.argc ≤ s0.argstack.data.length) ∧
    ¬ (0 < kf ((s0.argstack.data.length : Int) - (s0.argstack.argc : Int) + (k1 : Int)) ∧
       jf ((s0.argstack.data.length : Int) - (s0.argstack.argc : Int) + (k1 : Int)) + 1
         < (kf ((s0.argstack.data.length : Int) - (s0.argstack.argc : Int) + (k1 : Int)) : Int)) := by
  simp only [Eval.bind_run, argstack.getfirstargindex] at h
  cases hbr : bind_required n k1 0
      ((s0.argstack.data.length : Int) - (s0.argstack.argc : Int)) s0 with
  | mk r s1 =>
      rw [hbr] at h
      cases r with
      | error err => simp at h
      | ok p =>
          obtain ⟨hp, h0⟩ := bind_required_returns n k1 _ _ _ _ _ hbr
          refine ⟨?_, ?_⟩
          · rcases h0 with h0 | h0
            · exact Or.inl h0
            · exact Or.inr (by omega)
          · rintro ⟨hk, hj⟩
            rw [← hp] at hk hj
            simp only [regstack.push] at h
            have hu := bind_rest_underflow (kf p) (jf p)
              { s1 with regstack := s1.regstack ++ [Value.null] } hk hj
            cases hrr : bind_rest (kf p) (jf p)
                { s1 with regstack := s1.regstack ++ [Value.null] } with
            | mk r2 s3 =>
                rw [hrr] at h hu
                cases r2 with
                | error err => simp at h
                | ok u => exact hu rfl

/-- A call of `extend_env_fun` that returns has found its `argc` arguments on `argstack`. -/
theorem extend_env_fun_returns (s : State) (closure e : Value)
    (hok : (extend_env_fun closure s).1 = Except.ok e) :
    s.argstack.argc ≤ s.argstack.data.length := by
  cases closure with
  | closure code benv vars numv rargs =>
      have hent : ∀ cl, entered s cl benv vars numv = { s with
          frames := s.frames ++
            [{ vars := vars,
               slot := if numv = 0 then none else some (List.replicate numv Value.null),
               closure := cl }],
          regstack := s.regstack ++ [Value.environment s.frames.length benv] } := fun _ => rfl
      cases rargs with
      | false =>
          simp only [extend_env_fun, argstack.getargc, MEMORY.environment, regstack.push,
            regstack.top, liftExcept, getenvframe, setframeclosure,
            Eval.bind_run, Eval.pure_run, List.getLast?_concat, List.getElem?_concat_length,
            set_concat_length, if_true, arg_error, ERROR.severe, raise_run] at hok
          simp only [← hent] at hok
          by_cases hn : s.argstack.argc = numv
          · simp only [hn, ne_eq, not_true_eq_false, if_false] at hok
            rcases fixed_tail_returns _ _ _ _ hok with h0 | h0
            · rw [hn, h0]
              exact Nat.zero_le _
            · exact h0
          · simp only [hn, ne_eq, not_false_eq_true, if_true] at hok
            split at hok <;> simp [Eval.bind_run, raise_run] at hok
      | true =>
          simp only [extend_env_fun, argstack.getargc, MEMORY.environment, regstack.push,
            regstack.top, liftExcept, getenvframe, setframeclosure,
            Eval.bind_run, Eval.pure_run, List.getLast?_concat, List.getElem?_concat_length,
            set_concat_length, if_true, arg_error, ERROR.severe, raise_run, Bool.true_eq_false,
            if_false] at hok
          simp only [← hent] at hok
          split at hok
          · simp [Eval.bind_run, raise_run] at hok
          · rename_i hlt
            obtain ⟨h1, h2⟩ := rest_tail_returns s.frames.length _ _
              (fun p => (p + ((s.argstack.argc : Int) - (numv : Int)) - p + 1).toNat)
              (fun p => p + ((s.argstack.argc : Int) - (numv : Int))) _ _ hok
            have ha : (entered s (Value.closure code benv vars numv true) benv vars numv).argstack
                = s.argstack := rfl
            simp only [ha] at h1 h2
            by_contra hcon
            have hgt : s.argstack.data.length < s.argstack.argc := Nat.lt_of_not_le hcon
            rcases h1 with h0 | h0
            · apply h2
              constructor <;> omega
            · exact hcon h0
  | _ => simp [extend_env_fun] at hok

/-! ## C1: Write-then-read coherence -/

/-- C1 (as stated, refuted): on the global environment, storing the unbound sentinel in a
symbol and looking the symbol up raises "symbol is unbound" instead of returning the stored
value. -/
theorem sentinel_write_not_read_back :
    well_formed initial_state Value.null = true ∧
    (set_variable_value (Value.symbol 1) symbol_unbound Value.null initial_state).1
      = Except.ok () ∧
    lookup (set_variable_value (Value.symbol 1) symbol_unbound Value.null initial_state).2
        (Value.symbol 1) Value.null
      = Except.error (Error.severe "symbol is unbound" (Value.symbol 1)) ∧
    lookup (set_variable_value (Value.symbol 1) symbol_unbound Value.null initial_state).2
        (Value.symbol 1) Value.null
      ≠ Except.ok symbol_unbound := by
  refine ⟨rfl, rfl, rfl, ?_⟩
  intro h
  cases h

/-- C1 (amended): on a well-formed chain, `set_variable_value(v, x, env)` succeeds and
`lookup(v, env)` right after it returns `x`, provided `v` is bound in some frame of the
chain or `x` is not the unbound sentinel. -/
theorem set_then_lookup (s : State) (v : Nat) (x env : Value)
    (hwf : well_formed s env = true)
    (hx : bound_in_frames s (Value.symbol v) env = true ∨ x ≠ symbol_unbound) :
    (set_variable_value (Value.symbol v) x env s).1 = Except.ok () ∧
    lookup (set_variable_value (Value.symbol v) x env s).2 (Value.symbol v) env
      = Except.ok x := by
  have hg : (anyp env && !envp env) = false := by
    cases env <;> simp [well_formed] at hwf <;> simp [anyp, envp]
  simp only [set_variable_value, hg, Bool.false_eq_true, if_false]
  exact set_loop_then_lookup v x env s hwf hx

/-- C1, at a concrete state: the sentinel written to the frame variable `y` is read back. -/
theorem set_then_lookup_witness :
    well_formed sample_state sample_env = true ∧
    bound_in_frames sample_state (Value.symbol 2) sample_env = true ∧
    (set_variable_value (Value.symbol 2) symbol_unbound sample_env sample_state).1
      = Except.ok () ∧
    lookup (set_variable_value (Value.symbol 2) symbol_unbound sample_env sample_state).2
        (Value.symbol 2) sample_env = Except.ok symbol_unbound :=
  ⟨by decide, by decide,
   set_then_lookup sample_state 2 symbol_unbound sample_env (by decide) (Or.inl (by decide))⟩

/-! ## C2: Arity of fixed-arity closures -/

/-- C2: a closure without rest parameter and with formal count `N`, called with `A` recorded
arguments, binds without error when `A = N` (the `A` arguments being on `argstack`), raises
the severe error "too few arguments -- actual=A, expected=N" naming the closure when
`A < N`, and "too many arguments -- actual=A, expected=N" when `A > N`. -/
theorem extend_env_fun_fixed_arity (s : State) (code benv vars : Value) (numv : Nat) :
    (s.argstack.argc = numv → s.argstack.argc ≤ s.argstack.data.length →
      ∃ e, (extend_env_fun (Value.closure code benv vars numv false) s).1 = Except.ok e) ∧
    (s.argstack.argc < numv →
      (extend_env_fun (Value.closure code benv vars numv false) s).1
        = Except.error (Error.severe
            ("too few arguments -- actual=" ++ toString s.argstack.argc
              ++ ", expected=" ++ toString numv)
            (Value.closure code benv vars numv false))) ∧
    (numv < s.argstack.argc →
      (extend_env_fun (Value.closure code benv vars numv false) s).1
        = Except.error (Error.severe
            ("too many arguments -- actual=" ++ toString s.argstack.argc
              ++ ", expected=" ++ toString numv)
            (Value.closure code benv vars numv false))) := by
  refine ⟨?_, ?_, ?_⟩
  · intro h hd
    exact ⟨_, congrArg Prod.fst (extend_env_fun_fixed_run s code benv vars numv h hd)⟩
  · intro h
    rw [extend_env_fun_fixed_error s code benv vars numv (Nat.ne_of_lt h)]
    simp [h]
  · intro h
    rw [extend_env_fun_fixed_error s code benv vars numv (Nat.ne_of_gt h)]
    simp [Nat.lt_asymm h]

/-- C2, the scenario of the specification: formals `(x y)` and one actual. -/
theorem extend_env_fun_fixed_arity_witness :
    (extend_env_fun closure_xy (call_state [Value.fixnum 1])).1
      = Except.error (Error.severe "too few arguments -- actual=1, expected=2" closure_xy) :=
  (extend_env_fun_fixed_arity (call_state [Value.fixnum 1]) Value.null sample_env
    (list_of [Value.symbol 1, Value.symbol 2]) 2).2.1 (by decide)

/-! ## C3: Rest-argument binding -/

/-- C3: a closure with `N >= 1` formals, the last a rest parameter, called with `A >= N-1`
arguments on `argstack`, returns a new environment whose frame has `N` slots: slot `i`
holds the `i`-th actual for `i < N-1`, and slot `N-1` holds a proper list of length
`A-(N-1)` whose elements are the remaining actuals in their original order. -/
theorem extend_env_fun_rest_binding (s : State) (code benv vars : Value) (numv : Nat)
    (hn : 1 ≤ numv) (ha : numv - 1 ≤ s.argstack.argc)
    (hd : s.argstack.argc ≤ s.argstack.data.length) :
    (extend_env_fun (Value.closure code benv vars numv true) s).1
      = Except.ok (Value.environment s.frames.length benv) ∧
    ∃ f rest,
      (extend_env_fun (Value.closure code benv vars numv true) s).2.frames[s.frames.length]?
        = some f ∧
      f.nslots = numv ∧
      (∀ (i : Nat) (x : Value), i < numv - 1 → (actuals s)[i]? = some x →
        frameref f (i : Int) = Except.ok x) ∧
      frameref f ((numv - 1 : Nat) : Int) = Except.ok rest ∧
      proper_list rest = true ∧
      list_length rest = s.argstack.argc - (numv - 1) ∧
      list_elems rest = (actuals s).drop (numv - 1) := by
  rw [extend_env_fun_rest_run s code benv vars numv hn ha hd]
  have hlen : (actuals s).length = s.argstack.argc := by
    simp only [actuals, List.length_drop]
    omega
  have hT : (List.take (numv - 1) (actuals s)).length = numv - 1 := by
    simp only [List.length_take, hlen]
    omega
  have hprop : ∀ xs : List Value, proper_list (list_of xs) = true ∧
      list_length (list_of xs) = xs.length ∧ list_elems (list_of xs) = xs := by
    intro xs
    induction xs with
    | nil => exact ⟨rfl, rfl, rfl⟩
    | cons x xs ih => simp [list_of, proper_list, list_length, list_elems, ih]
  refine ⟨rfl,
    { vars := vars,
      slot := some ((actuals s).take (numv - 1) ++ [list_of ((actuals s).drop (numv - 1))]),
      closure := Value.closure code benv vars numv true },
    list_of ((actuals s).drop (numv - 1)), ?_, ?_, ?_, ?_, (hprop _).1, ?_, (hprop _).2.2⟩
  · simp only [extended, List.getElem?_concat_length]
  · simp only [Frame.nslots, List.length_append, hT, List.length_singleton]
    omega
  · intro i x hi hx
    have h1 : (List.take (numv - 1) (actuals s) ++ [list_of (List.drop (numv - 1) (actuals s))])[i]?
        = some x := by
      rw [List.getElem?_append_left (by omega), List.getElem?_take_of_lt hi, hx]
    simp only [frameref, Int.ofNat_nonneg, if_true, Int.toNat_ofNat, h1]
  · have h1 : (List.take (numv - 1) (actuals s) ++ [list_of (List.drop (numv - 1) (actuals s))])[numv - 1]?
        = some (list_of (List.drop (numv - 1) (actuals s))) := by
      rw [List.getElem?_append_right (by omega), hT]
      simp
    simp only [frameref, Int.ofNat_nonneg, if_true, Int.toNat_ofNat, h1]
  · rw [(hprop _).2.1, List.length_drop, hlen]

/-- C3, the scenario of the specification: formals `(x y . z)` and actuals `(1 2 3 4)`
bind `x = 1`, `y = 2`, `z = (3 4)`. -/
theorem extend_env_fun_rest_binding_witness :
    (1 ≤ 3 ∧
     3 - 1 ≤ (call_state [Value.fixnum 1, Value.fixnum 2, Value.fixnum 3, Value.fixnum 4]).argstack.argc ∧
     (call_state [Value.fixnum 1, Value.fixnum 2, Value.fixnum 3, Value.fixnum 4]).argstack.argc
       ≤ (call_state [Value.fixnum 1, Value.fixnum 2, Value.fixnum 3, Value.fixnum 4]).argstack.data.length) ∧
    (extend_env_fun closure_xy_rest
        (call_state [Value.fixnum 1, Value.fixnum 2, Value.fixnum 3, Value.fixnum 4])).1
      = Except.ok (Value.environment 1 sample_env) ∧
    (extend_env_fun closure_xy_rest
        (call_state [Value.fixnum 1, Value.fixnum 2, Value.fixnum 3, Value.fixnum 4])).2.frames[1]?
      = some { vars := list_of [Value.symbol 1, Value.symbol 2, Value.symbol 3],
               slot := some [Value.fixnum 1, Value.fixnum 2,
                             list_of [Value.fixnum 3, Value.fixnum 4]],
               closure := closure_xy_rest } :=
  ⟨⟨by decide, by decide, by decide⟩,
   (extend_env_fun_rest_binding
      (call_state [Value.fixnum 1, Value.fixnum 2, Value.fixnum 3, Value.fixnum 4])
      Value.null sample_env (list_of [Value.symbol 1, Value.symbol 2, Value.symbol 3]) 3
      (by decide) (by decide) (by decide)).1,
   by
     rw [closure_xy_rest, extend_env_fun_rest_run _ _ _ _ _ (by decide) (by decide) (by decide)]
     rfl⟩

/-! ## C4: Rest-argument arity error -/

/-- C4: a closure with `N` formals, the last a rest parameter, called with `A < N-1`
arguments raises the severe error "too few arguments -- actual=A, expected=N-1" naming the
closure, and every frame that existed before the call is left as it was. -/
theorem extend_env_fun_rest_too_few (s : State) (code benv vars : Value) (numv : Nat)
    (h : s.argstack.argc < numv - 1) :
    (extend_env_fun (Value.closure code benv vars numv true) s).1
      = Except.error (Error.severe
          ("too few arguments -- actual=" ++ toString s.argstack.argc
            ++ ", expected=" ++ toString (numv - 1))
          (Value.closure code benv vars numv true)) ∧
    ∀ a : Nat, a < s.frames.length →
      (extend_env_fun (Value.closure code benv vars numv true) s).2.frames[a]? = s.frames[a]? := by
  rw [extend_env_fun_rest_error s code benv vars numv h]
  refine ⟨rfl, ?_⟩
  intro a ha
  simp only [entered, List.getElem?_append_left ha]

/-- C4, at a concrete state: formals `(x y . z)` and one actual. -/
theorem extend_env_fun_rest_too_few_witness :
    (call_state [Value.fixnum 1]).argstack.argc < 3 - 1 ∧
    (extend_env_fun closure_xy_rest (call_state [Value.fixnum 1])).1
      = Except.error (Error.severe "too few arguments -- actual=1, expected=2" closure_xy_rest) ∧
    (extend_env_fun closure_xy_rest (call_state [Value.fixnum 1])).2.frames[0]?
      = (call_state [Value.fixnum 1]).frames[0]? :=
  ⟨by decide,
   (extend_env_fun_rest_too_few (call_state [Value.fixnum 1]) Value.null sample_env
      (list_of [Value.symbol 1, Value.symbol 2, Value.symbol 3]) 3 (by decide)).1,
   (extend_env_fun_rest_too_few (call_state [Value.fixnum 1]) Value.null sample_env
      (list_of [Value.symbol 1, Value.symbol 2, Value.symbol 3]) 3 (by decide)).2 0 (by decide)⟩

/-! ## C5: Positional binding -/

/-- C5: a closure without rest parameter and with `N` formals, called with exactly `N`
actuals on `argstack`, returns one new environment link whose base is the captured
environment; the frame store grows by exactly that frame, whose variable list is the
closure's formal list and whose slot `i` holds the `i`-th pushed actual.  Hence, when the
formal list is a proper list of `N` pairwise distinct variables, looking up the `i`-th formal
in the result gives the `i`-th actual, and looking up a symbol that is not a formal gives what
it gives in the (well-formed) captured environment. -/
theorem extend_env_fun_fixed_binding (s : State) (code benv vars : Value) (numv : Nat)
    (hargc : s.argstack.argc = numv) (hd : s.argstack.argc ≤ s.argstack.data.length) :
    (extend_env_fun (Value.closure code benv vars numv false) s).1
      = Except.ok (Value.environment s.frames.length benv) ∧
    (extend_env_fun (Value.closure code benv vars numv false) s).2.frames.length
      = s.frames.length + 1 ∧
    (∀ a : Nat, a < s.frames.length →
      (extend_env_fun (Value.closure code benv vars numv false) s).2.frames[a]?
        = s.frames[a]?) ∧
    (∃ f,
      (extend_env_fun (Value.closure code benv vars numv false) s).2.frames[s.frames.length]?
        = some f ∧
      f.vars = vars ∧ f.nslots = numv ∧
      ∀ (i : Nat) (x : Value), (actuals s)[i]? = some x → frameref f (i : Int) = Except.ok x) ∧
    (proper_list vars = true → list_length vars = numv → (list_elems vars).Nodup →
      ∀ (i v : Nat) (x : Value), (list_elems vars)[i]? = some (Value.symbol v) →
        (actuals s)[i]? = some x →
        lookup (extend_env_fun (Value.closure code benv vars numv false) s).2 (Value.symbol v)
            (Value.environment s.frames.length benv)
          = Except.ok x) ∧
    (proper_list vars = true → well_formed s benv = true →
      ∀ w : Nat, occurs (Value.symbol w) vars = false →
        lookup (extend_env_fun (Value.closure code benv vars numv false) s).2 (Value.symbol w)
            (Value.environment s.frames.length benv)
          = lookup s (Value.symbol w) benv) := by
  rw [extend_env_fun_fixed_run s code benv vars numv hargc hd]
  have hlen : (actuals s).length = numv := by
    simp only [actuals, List.length_drop]
    omega
  have href : ∀ (i : Nat) (x : Value), (actuals s)[i]? = some x →
      frameref { vars := vars, slot := if numv = 0 then none else some (actuals s),
                 closure := Value.closure code benv vars numv false } (i : Int)
        = Except.ok x := by
    intro i x hx
    have hi : i < (actuals s).length := by
      rcases Nat.lt_or_ge i (actuals s).length with h | h
      · exact h
      · simp [List.getElem?_eq_none h] at hx
    have h0 : ¬ (numv = 0) := by omega
    simp only [frameref, h0, if_false, Int.ofNat_nonneg, if_true, Int.toNat_ofNat, hx]
  refine ⟨rfl, ?_, ?_, ⟨_, ?_, rfl, ?_, href⟩, ?_, ?_⟩
  · simp [extended]
  · intro a ha
    simp only [extended, List.getElem?_append_left ha]
  · simp only [extended, List.getElem?_concat_length]
  · by_cases h0 : numv = 0
    · simp [Frame.nslots, h0]
    · simp [Frame.nslots, h0, hlen]
  · intro hp _ hnd i v x hv hx
    simp only [lookup, getframe, extended, List.getElem?_concat_length,
      scan_nth vars hp hnd i 0 (Value.symbol v) hv, Nat.zero_add]
    exact href i x hx
  · intro hp hwf w hw
    simp only [lookup, getframe, extended, List.getElem?_concat_length,
      scan_absent (Value.symbol w) vars 0 hp hw]
    exact lookup_frames_append s _ (Value.symbol w) benv _ rfl rfl hwf

/-- C5, at a concrete state: formals `(x y)` and actuals `(1 2)`; `y` is found in the new
frame and the global `z` through the captured environment. -/
theorem extend_env_fun_fixed_binding_witness :
    ((call_state [Value.fixnum 1, Value.fixnum 2]).argstack.argc = 2 ∧
     (call_state [Value.fixnum 1, Value.fixnum 2]).argstack.argc
       ≤ (call_state [Value.fixnum 1, Value.fixnum 2]).argstack.data.length) ∧
    (extend_env_fun closure_xy (call_state [Value.fixnum 1, Value.fixnum 2])).1
      = Except.ok (Value.environment 1 sample_env) ∧
    lookup (extend_env_fun closure_xy (call_state [Value.fixnum 1, Value.fixnum 2])).2
        (Value.symbol 2) (Value.environment 1 sample_env) = Except.ok (Value.fixnum 2) ∧
    lookup (extend_env_fun closure_xy (call_state [Value.fixnum 1, Value.fixnum 2])).2
        (Value.symbol 3) (Value.environment 1 sample_env) = Except.ok (Value.fixnum 30) :=
  ⟨⟨by decide, by decide⟩,
   (extend_env_fun_fixed_binding (call_state [Value.fixnum 1, Value.fixnum 2]) Value.null
      sample_env (list_of [Value.symbol 1, Value.symbol 2]) 2 (by decide) (by decide)).1,
   (extend_env_fun_fixed_binding (call_state [Value.fixnum 1, Value.fixnum 2]) Value.null
      sample_env (list_of [Value.symbol 1, Value.symbol 2]) 2 (by decide) (by decide)).2.2.2.2.1
      (by decide) (by decide) (by decide) 1 2 (Value.fixnum 2) (by decide) (by decide),
   by
     rw [closure_xy, extend_env_fun_fixed_run _ _ _ _ _ (by decide) (by decide)]
     rfl⟩

/-! ## C6: Lookup after append -/

/-- C6: for an environment whose innermost frame is live, `append(env, v, x)` succeeds, then
`lookup(v, env)` returns `x` (whatever `v` was bound to before, in that frame or further
out), and for every other symbol `w` the lookup in `env` gives exactly the result, value or
error, that it gave before the append. -/
theorem lookup_after_append (s : State) (frame : Nat) (base : Value) (v : Nat) (x : Value)
    (hlive : frame < s.frames.length) :
    (append (Value.environment frame base) (Value.symbol v) x s).1 = Except.ok () ∧
    lookup (append (Value.environment frame base) (Value.symbol v) x s).2 (Value.symbol v)
        (Value.environment frame base) = Except.ok x ∧
    ∀ w : Nat, w ≠ v →
      lookup (append (Value.environment frame base) (Value.symbol v) x s).2 (Value.symbol w)
          (Value.environment frame base)
        = lookup s (Value.symbol w) (Value.environment frame base) := by
  have hf : s.frames[frame]? = some (s.frames[frame]) := List.getElem?_eq_getElem hlive
  rw [append_run frame base _ _ s _ hf]
  refine ⟨rfl, ?_, ?_⟩
  · simp only [lookup, getframe, List.getElem?_set_self hlive]
    simp only [appended, MEMORY.cons, scan, if_true, frameref]
    cases s.frames[frame].slot <;> simp
  · intro w hw
    exact append_keeps_other_lookups s frame _ v w x hf hw _

/-- C6, at a concrete state: `z` is appended to the frame `(x y)`. -/
theorem lookup_after_append_witness :
    0 < sample_state.frames.length ∧
    lookup (append sample_env (Value.symbol 3) (Value.fixnum 5) sample_state).2
      (Value.symbol 3) sample_env = Except.ok (Value.fixnum 5) ∧
    lookup (append sample_env (Value.symbol 3) (Value.fixnum 5) sample_state).2
      (Value.symbol 2) sample_env = Except.ok (Value.fixnum 20) :=
  ⟨by decide,
   (lookup_after_append sample_state 0 Value.null 3 (Value.fixnum 5) (by decide)).2.1,
   ((lookup_after_append sample_state 0 Value.null 3 (Value.fixnum 5) (by decide)).2.2 2
      (by decide)).trans rfl⟩

/-! ## C7: Snapshot fidelity -/

/-- C7: `get_evaluator_state` returns a fresh 3-element vector whose elements are three
fresh vectors holding, in stack order from the bottom, the entries `regstack` had before the
call, the entries of `argstack`, and the boxed entries of `intstack`. -/
theorem get_evaluator_state_fidelity (s : State) :
    (get_evaluator_state s).1 = Except.ok (Value.vector (s.vectors.length + 3)) ∧
    (get_evaluator_state s).2.vectors[s.vectors.length + 3]?
      = some [Value.vector s.vectors.length, Value.vector (s.vectors.length + 1),
              Value.vector (s.vectors.length + 2)] ∧
    (get_evaluator_state s).2.vectors[s.vectors.length]? = some s.regstack ∧
    (get_evaluator_state s).2.vectors[s.vectors.length + 1]? = some s.argstack.data ∧
    (get_evaluator_state s).2.vectors[s.vectors.length + 2]?
      = some (s.intstack.map MEMORY.fixnum) := by
  rw [get_evaluator_state_run]
  have h : ∀ (k : Nat) (l : List (List Value)), (s.vectors ++ l)[s.vectors.length + k]? = l[k]? := by
    intro k l
    rw [List.getElem?_append_right (Nat.le_add_right _ _), Nat.add_sub_cancel_left]
  refine ⟨rfl, ?_, ?_, ?_, ?_⟩
  · exact h 3 _
  · exact h 0 _
  · exact h 1 _
  · exact h 2 _

/-! ## C8: Snapshot is a copy -/

/-- C8: `get_evaluator_state` leaves the three stacks (depth, contents and recorded argument
count) and the registers `exp`, `env`, `val`, `aux`, `unev`, `cont`, `next`, `pc` as they
were. -/
theorem get_evaluator_state_pure_copy (s : State) :
    (get_evaluator_state s).2.regstack = s.regstack ∧
    (get_evaluator_state s).2.argstack = s.argstack ∧
    (get_evaluator_state s).2.intstack = s.intstack ∧
    (get_evaluator_state s).2.exp = s.exp ∧
    (get_evaluator_state s).2.env = s.env ∧
    (get_evaluator_state s).2.val = s.val ∧
    (get_evaluator_state s).2.aux = s.aux ∧
    (get_evaluator_state s).2.unev = s.unev ∧
    (get_evaluator_state s).2.cont = s.cont ∧
    (get_evaluator_state s).2.next = s.next ∧
    (get_evaluator_state s).2.pc = s.pc := by
  rw [get_evaluator_state_run]
  exact ⟨rfl, rfl, rfl, rfl, rfl, rfl, rfl, rfl, rfl, rfl, rfl⟩

/-! ## C9: Unbound variables -/

/-- C9: on a well-formed environment, `lookup(v, env)` raises the severe error
"symbol is unbound" naming `v` if and only if `v` occurs in the variable list of no frame of
the chain and the global value of `v` is the unbound sentinel; in every other case it returns
a value. -/
theorem lookup_unbound_iff (s : State) (v : Nat) (env : Value)
    (hwf : well_formed s env = true) :
    (lookup s (Value.symbol v) env
        = Except.error (Error.severe "symbol is unbound" (Value.symbol v)) ↔
      (bound_in_frames s (Value.symbol v) env = false ∧ getvalue s v = symbol_unbound)) ∧
    (¬ (bound_in_frames s (Value.symbol v) env = false ∧ getvalue s v = symbol_unbound) →
      ∃ x, lookup s (Value.symbol v) env = Except.ok x) := by
  have hg : lookup s (Value.symbol v) Value.null
      = if getvalue s v = symbol_unbound
        then Except.error (Error.severe "symbol is unbound" (Value.symbol v))
        else Except.ok (getvalue s v) := by
    simp [lookup, value]
  rcases lookup_wf_cases s v env hwf with ⟨b, x, hx⟩ | ⟨b, hx⟩
  · simp [b, hx]
  · rw [hx, hg]
    by_cases hu : getvalue s v = symbol_unbound
    · simp [b, hu]
    · simp [b, hu]

/-- C9, at a concrete state: an undefined symbol raises, a global one is returned. -/
theorem lookup_unbound_iff_witness :
    well_formed sample_state sample_env = true ∧
    lookup sample_state (Value.symbol 4) sample_env
      = Except.error (Error.severe "symbol is unbound" (Value.symbol 4)) ∧
    (∃ x, lookup sample_state (Value.symbol 3) sample_env = Except.ok x) :=
  ⟨by decide,
   (lookup_unbound_iff sample_state 4 sample_env (by decide)).1.2 (by decide),
   (lookup_unbound_iff sample_state 3 sample_env (by decide)).2 (by decide)⟩

/-! ## C10: Empty bindings -/

/-- C10: `extend_env_vars` on empty bindings returns the given environment itself and
leaves the whole state, the frame store included, as it was. -/
theorem extend_env_vars_null (s : State) (env : Value) :
    extend_env_vars Value.null env s = (Except.ok env, s) := rfl

/-! ## C11: Non-empty bindings -/

/-- C11: for a non-empty proper list of `k` bindings, `extend_env_vars` returns a new
environment link over `env` whose fresh frame has exactly `k` slots and, as its variable
list, the variables of the bindings in binding order; hence a symbol that no binding names
is looked up in the result exactly as in the (well-formed) base environment. -/
theorem extend_env_vars_bindings (s : State) (bs : List Value) (env : Value) (hne : bs ≠ []) :
    (extend_env_vars (list_of bs) env s).1
      = Except.ok (Value.environment s.frames.length env) ∧
    (extend_env_vars (list_of bs) env s).2.frames.length = s.frames.length + 1 ∧
    (∃ f, (extend_env_vars (list_of bs) env s).2.frames[s.frames.length]? = some f ∧
      f.nslots = bs.length ∧ f.vars = list_of (bs.map binding_var)) ∧
    (well_formed s env = true →
      ∀ w : Nat, Value.symbol w ∉ bs.map binding_var →
        lookup (extend_env_vars (list_of bs) env s).2 (Value.symbol w)
            (Value.environment s.frames.length env)
          = lookup s (Value.symbol w) env) := by
  rw [extend_env_vars_run s bs env hne]
  refine ⟨rfl, by simp, ⟨_, List.getElem?_concat_length _ _, ?_, rfl⟩, ?_⟩
  · simp [Frame.nslots]
  · intro hwf w hw
    have hp := proper_list_of (bs.map binding_var)
    have ho : occurs (Value.symbol w) (list_of (bs.map binding_var)) = false := by
      cases h : occurs (Value.symbol w) (list_of (bs.map binding_var)) with
      | false => rfl
      | true =>
          rw [occurs_iff_mem, hp.2.2] at h
          exact absurd h hw
    simp only [lookup, getframe, List.getElem?_concat_length,
      scan_absent (Value.symbol w) _ 0 hp.1 ho]
    exact lookup_frames_append s _ (Value.symbol w) env _ rfl rfl hwf

/-- C11, at a concrete state: the bindings `((z 1) x)` over the sample environment. -/
theorem extend_env_vars_bindings_witness :
    [Value.cons (Value.symbol 3) (Value.cons (Value.fixnum 1) Value.null), Value.symbol 1] ≠ [] ∧
    (extend_env_vars
        (list_of [Value.cons (Value.symbol 3) (Value.cons (Value.fixnum 1) Value.null),
                  Value.symbol 1]) sample_env sample_state).1
      = Except.ok (Value.environment 1 sample_env) ∧
    lookup (extend_env_vars
        (list_of [Value.cons (Value.symbol 3) (Value.cons (Value.fixnum 1) Value.null),
                  Value.symbol 1]) sample_env sample_state).2
        (Value.symbol 2) (Value.environment 1 sample_env)
      = Except.ok (Value.fixnum 20) :=
  ⟨by decide,
   (extend_env_vars_bindings sample_state
      [Value.cons (Value.symbol 3) (Value.cons (Value.fixnum 1) Value.null), Value.symbol 1]
      sample_env (by decide)).1,
   ((extend_env_vars_bindings sample_state
      [Value.cons (Value.symbol 3) (Value.cons (Value.fixnum 1) Value.null), Value.symbol 1]
      sample_env (by decide)).2.2.2 (by decide) 2 (by decide)).trans rfl⟩

/-! ## C12: Special-form dispatch table -/

/-- C12: `EVAL::initialize` returns normally, and afterwards each of the keywords `quote`,
`delay`, `set!`, `define`, `if`, `cond`, `lambda`, `begin`, `let`, `letrec`, `while`, `and`,
`or`, `access` carries its own dispatch tag: the fourteen tags are pairwise distinct and none
is the generic-application tag; `sequence` carries the tag of `begin`, and the no-keyword
case (null) carries the generic-application tag. -/
theorem special_form_table (s : State) :
    ( EVAL.initialize s).1 = Except.ok () ∧
    keywords.map (getform ( EVAL.initialize s).2)
      = [some EVSTATE.EV_QUOTE, some EVSTATE.EV_DELAY, some EVSTATE.EV_SET,
         some EVSTATE.EV_DEFINE, some EVSTATE.EV_IF, some EVSTATE.EV_COND,
         some EVSTATE.EV_LAMBDA, some EVSTATE.EV_BEGIN, some EVSTATE.EV_LET,
         some EVSTATE.EV_LETREC, some EVSTATE.EV_WHILE, some EVSTATE.EV_AND,
         some EVSTATE.EV_OR, some EVSTATE.EV_ACCESS] ∧
    (keywords.map (getform ( EVAL.initialize s).2)).Nodup ∧
    some EVSTATE.EV_APPLICATION ∉ keywords.map (getform ( EVAL.initialize s).2) ∧
    getform ( EVAL.initialize s).2 symbol_sequence
      = getform ( EVAL.initialize s).2 symbol_begin ∧
    getform ( EVAL.initialize s).2 Value.null = some EVSTATE.EV_APPLICATION := by
  rw [initialize_run]
  have hk : keywords.map (getform (initialized s))
      = [some EVSTATE.EV_QUOTE, some EVSTATE.EV_DELAY, some EVSTATE.EV_SET,
         some EVSTATE.EV_DEFINE, some EVSTATE.EV_IF, some EVSTATE.EV_COND,
         some EVSTATE.EV_LAMBDA, some EVSTATE.EV_BEGIN, some EVSTATE.EV_LET,
         some EVSTATE.EV_LETREC, some EVSTATE.EV_WHILE, some EVSTATE.EV_AND,
         some EVSTATE.EV_OR, some EVSTATE.EV_ACCESS] := by
    simp only [keywords, List.map_cons, List.map_nil]
    rw [getform_initialized s symbol_quote (symbol_quote, EVSTATE.EV_QUOTE) (by decide),
      getform_initialized s symbol_delay (symbol_delay, EVSTATE.EV_DELAY) (by decide),
      getform_initialized s symbol_set (symbol_set, EVSTATE.EV_SET) (by decide),
      getform_initialized s symbol_define (symbol_define, EVSTATE.EV_DEFINE) (by decide),
      getform_initialized s symbol_if (symbol_if, EVSTATE.EV_IF) (by decide),
      getform_initialized s symbol_cond (symbol_cond, EVSTATE.EV_COND) (by decide),
      getform_initialized s symbol_lambda (symbol_lambda, EVSTATE.EV_LAMBDA) (by decide),
      getform_initialized s symbol_begin (symbol_begin, EVSTATE.EV_BEGIN) (by decide),
      getform_initialized s symbol_let (symbol_let, EVSTATE.EV_LET) (by decide),
      getform_initialized s symbol_letrec (symbol_letrec, EVSTATE.EV_LETREC) (by decide),
      getform_initialized s symbol_while (symbol_while, EVSTATE.EV_WHILE) (by decide),
      getform_initialized s symbol_and (symbol_and, EVSTATE.EV_AND) (by decide),
      getform_initialized s symbol_or (symbol_or, EVSTATE.EV_OR) (by decide),
      getform_initialized s symbol_access (symbol_access, EVSTATE.EV_ACCESS) (by decide)]
  refine ⟨rfl, hk, ?_, ?_, ?_, ?_⟩
  · rw [hk]; decide
  · rw [hk]; decide
  · rw [getform_initialized s symbol_sequence (symbol_sequence, EVSTATE.EV_BEGIN) (by decide),
      getform_initialized s symbol_begin (symbol_begin, EVSTATE.EV_BEGIN) (by decide)]
  · exact getform_initialized s Value.null (Value.null, EVSTATE.EV_APPLICATION) (by decide)

/-! ## C13: Frame invariant -/

/-- C13: the frame invariant `len(vars) == nslots` holds for the frame `extend_env_fun`
creates for a closure whose stored parameter count is the length of its formal list, and
for the frame `extend_env_vars` creates; these two leave every older frame as it was; and
`append` and `set_variable_value` keep the invariant of every frame that satisfies it. -/
theorem frame_invariant_kept (s : State) :
    (∀ (code benv vars : Value) (numv : Nat) (rargs : Bool), list_length vars = numv →
      (∀ a : Nat, a < s.frames.length →
        (extend_env_fun (Value.closure code benv vars numv rargs) s).2.frames[a]?
          = s.frames[a]?) ∧
      ∃ f, (extend_env_fun (Value.closure code benv vars numv rargs) s).2.frames[s.frames.length]?
          = some f ∧ frame_invariant f = true) ∧
    (∀ (bindings benv : Value) (a : Nat) (f : Frame),
      (extend_env_vars bindings benv s).2.frames[a]? = some f →
        s.frames[a]? = some f ∨ (a = s.frames.length ∧ frame_invariant f = true)) ∧
    (∀ (env var val : Value) (a : Nat) (f : Frame),
      s.frames[a]? = some f → frame_invariant f = true →
        ∃ f', (append env var val s).2.frames[a]? = some f' ∧ frame_invariant f' = true) ∧
    (∀ (var val env : Value) (a : Nat) (f : Frame),
      s.frames[a]? = some f → frame_invariant f = true →
        ∃ f', (set_variable_value var val env s).2.frames[a]? = some f' ∧
          frame_invariant f' = true) := by
  refine ⟨?_, ?_, ?_, ?_⟩
  · intro code benv vars numv rargs hlen
    obtain ⟨_, h2, ⟨f, h3, h4, h5, _⟩, _⟩ := extend_env_fun_effect s code benv vars numv rargs
    refine ⟨h2, f, h3, ?_⟩
    simp only [frame_invariant, beq_iff_eq, h4, h5, hlen]
  · intro bindings benv a f hf
    rcases extend_env_vars_frames s bindings benv with h | ⟨vars, h⟩
    · left
      rw [h] at hf
      exact hf
    · rw [h] at hf
      rcases Nat.lt_or_ge a s.frames.length with hlt | hge
      · left
        rw [List.getElem?_append_left hlt] at hf
        exact hf
      · right
        rw [List.getElem?_append_right hge] at hf
        have ha : a - s.frames.length = 0 := by
          rcases Nat.eq_zero_or_pos (a - s.frames.length) with h0 | hpos
          · exact h0
          · have : (a - s.frames.length) = (a - s.frames.length - 1) + 1 := by omega
            rw [this] at hf
            simp at hf
        rw [ha] at hf
        simp only [List.getElem?_cons_zero, Option.some.injEq] at hf
        refine ⟨by omega, ?_⟩
        rw [← hf]
        have hp := proper_list_of vars
        by_cases h0 : vars.length = 0
        · simp [frame_invariant, Frame.nslots, h0, hp.2.1]
        · simp [frame_invariant, Frame.nslots, h0, hp.2.1]
  · intro env var val a f hf hi
    cases env with
    | environment frame base =>
        cases hfr : s.frames[frame]? with
        | none =>
            refine ⟨f, ?_, hi⟩
            simp [append, getenvframe, getframe, hfr, hf]
        | some g =>
            have hlt : frame < s.frames.length := by
              rcases Nat.lt_or_ge frame s.frames.length with h | h
              · exact h
              · simp [List.getElem?_eq_none h] at hfr
            rw [append_run frame base var val s g hfr]
            by_cases ha : a = frame
            · subst ha
              rw [hf] at hfr
              cases hfr
              refine ⟨appended f var val, by simp only [List.getElem?_set_self hlt], ?_⟩
              simp only [frame_invariant, beq_iff_eq] at hi ⊢
              cases hs : f.slot with
              | none =>
                  simp only [Frame.nslots, hs] at hi
                  simp [appended, Frame.nslots, hs, list_length, MEMORY.cons, hi]
              | some old =>
                  simp only [Frame.nslots, hs] at hi
                  simp [appended, Frame.nslots, hs, list_length, MEMORY.cons, hi]
            · refine ⟨f, ?_, hi⟩
              simp only [List.getElem?_set_ne (Ne.symm ha), hf]
    | _ => exact ⟨f, by simpa [append, getenvframe] using hf, hi⟩
  · intro var val env a f hf hi
    unfold set_variable_value
    split
    · exact ⟨f, hf, hi⟩
    · exact set_loop_frames var val env s a f hf hi

/-! ## C14: Innermost binding -/

/-- C14: on a well-formed environment that binds the symbol `v` in some frame,
`lookup(v, env)` returns the slot at index `i` of frame `frame`, where `frame` is the first
frame, walking outward from `env`, whose variable list contains `v` and `i` is the index of
the first occurrence of `v` in that list; no outer frame and no global value enters the
result. -/
theorem lookup_innermost (s : State) (v : Nat) (env : Value)
    (hwf : well_formed s env = true)
    (hb : bound_in_frames s (Value.symbol v) env = true) :
    ∃ (frame i : Nat) (f : Frame) (a : List Value) (x : Value),
      innermost_binding s (Value.symbol v) env = some (frame, i) ∧
      s.frames[frame]? = some f ∧ f.slot = some a ∧ a[i]? = some x ∧
      lookup s (Value.symbol v) env = Except.ok x := by
  obtain ⟨frame, i, f, a, h1, h2, h3, h4, h5, _⟩ :=
    innermost_access s v Value.null env hwf hb
  refine ⟨frame, i, f, a, a[i], h1, h2, h3, List.getElem?_eq_getElem h4, ?_⟩
  rw [h5, List.getD_eq_getElem _ _ h4]

/-- C14, at a concrete state: `x` is read from index 1 of the inner frame. -/
theorem lookup_innermost_witness :
    well_formed shadow_state shadow_env = true ∧
    bound_in_frames shadow_state (Value.symbol 1) shadow_env = true ∧
    innermost_binding shadow_state (Value.symbol 1) shadow_env = some (1, 1) ∧
    lookup shadow_state (Value.symbol 1) shadow_env = Except.ok (Value.fixnum 31) ∧
    ∃ (frame i : Nat) (f : Frame) (a : List Value) (x : Value),
      innermost_binding shadow_state (Value.symbol 1) shadow_env = some (frame, i) ∧
      shadow_state.frames[frame]? = some f ∧ f.slot = some a ∧ a[i]? = some x ∧
      lookup shadow_state (Value.symbol 1) shadow_env = Except.ok x :=
  ⟨by decide, by decide, by decide, rfl,
   lookup_innermost shadow_state 1 shadow_env (by decide) (by decide)⟩

/-! ## C15: Assignment changes one location -/

/-- C15: on a well-formed environment, `set_variable_value(v, x, env)` succeeds and changes
exactly one location.  If `v` is bound in some frame, the state afterwards is the state
before with slot `i` of frame `frame` overwritten by `x`, where `(frame, i)` is the innermost
binding of `v`, the slot `lookup(v, env)` reads: every other slot, every variable list and
every global binding, that of `v` included, is as before.  If `v` is bound in no frame, the
state afterwards is the state before with the global binding of `v` set to `x`: no frame and
no other global binding changes. -/
theorem set_variable_value_one_location (s : State) (v : Nat) (x env : Value)
    (hwf : well_formed s env = true) :
    (bound_in_frames s (Value.symbol v) env = true →
      ∃ (frame i : Nat) (f : Frame) (a : List Value),
        innermost_binding s (Value.symbol v) env = some (frame, i) ∧
        s.frames[frame]? = some f ∧ f.slot = some a ∧ i < a.length ∧
        set_variable_value (Value.symbol v) x env s
          = (Except.ok (),
             { s with frames := (s.frames.set frame { f with slot := some (a.set i x) }) }) ∧
        (∀ b : Nat, b ≠ frame →
          (set_variable_value (Value.symbol v) x env s).2.frames[b]? = s.frames[b]?) ∧
        (∀ w : Nat, getvalue (set_variable_value (Value.symbol v) x env s).2 w
          = getvalue s w)) ∧
    (bound_in_frames s (Value.symbol v) env = false →
      set_variable_value (Value.symbol v) x env s
        = (Except.ok (), { s with globals := (v, x) :: s.globals }) ∧
      (set_variable_value (Value.symbol v) x env s).2.frames = s.frames ∧
      getvalue (set_variable_value (Value.symbol v) x env s).2 v = x ∧
      (∀ w : Nat, w ≠ v →
        getvalue (set_variable_value (Value.symbol v) x env s).2 w = getvalue s w)) := by
  rw [set_variable_value_wf s _ x env hwf]
  constructor
  · intro hb
    obtain ⟨frame, i, f, a, h1, h2, h3, h4, _, h6⟩ := innermost_access s v x env hwf hb
    refine ⟨frame, i, f, a, h1, h2, h3, h4, h6, ?_, ?_⟩
    · intro b hb
      rw [h6]
      simp only [List.getElem?_set_ne (Ne.symm hb)]
    · intro w
      rw [h6]
      rfl
  · intro hb
    rw [unbound_assign s v x env hwf hb]
    refine ⟨rfl, rfl, ?_, ?_⟩
    · simp [getvalue]
    · intro w hw
      have : ¬ (v = w) := fun h => hw h.symm
      simp [getvalue, List.find?_cons, this]

/-- C15, at a concrete state: assigning the shadowed `x` overwrites index 1 of the inner
frame and nothing else. -/
theorem set_variable_value_one_location_witness :
    well_formed shadow_state shadow_env = true ∧
    set_variable_value (Value.symbol 1) (Value.fixnum 7) shadow_env shadow_state
      = (Except.ok (),
         { shadow_state with
           frames := [{ vars := list_of [Value.symbol 1, Value.symbol 2],
                        slot := some [Value.fixnum 10, Value.fixnum 20],
                        closure := Value.null },
                      { vars := list_of [Value.symbol 3, Value.symbol 1, Value.symbol 1],
                        slot := some [Value.fixnum 30, Value.fixnum 7, Value.fixnum 32],
                        closure := Value.null }] }) ∧
    (set_variable_value (Value.symbol 5) (Value.fixnum 7) shadow_env shadow_state).2.frames
      = shadow_state.frames :=
  ⟨by decide, rfl,
   ((set_variable_value_one_location shadow_state 5 (Value.fixnum 7) shadow_env
      (by decide)).2 (by decide)).2.1⟩

/-! ## C16: Append shifts by one -/

/-- C16: for an environment whose innermost frame `f` is live, `append(env, var, val)`
succeeds and changes only that frame: afterwards it has the variable list `var :: vs`, one
slot more, `val` in slot 0 and the old slot `i` in slot `i+1`; its closure field, every
other frame and the rest of the state are as before. -/
theorem append_shifts_by_one (s : State) (frame : Nat) (base var val : Value) (f : Frame)
    (hf : s.frames[frame]? = some f) :
    ∃ f',
      append (Value.environment frame base) var val s
        = (Except.ok (), { s with frames := s.frames.set frame f' }) ∧
      (append (Value.environment frame base) var val s).2.frames[frame]? = some f' ∧
      f'.vars = Value.cons var f.vars ∧
      f'.nslots = f.nslots + 1 ∧
      f'.closure = f.closure ∧
      frameref f' 0 = Except.ok val ∧
      (∀ i : Nat, i < f.nslots → frameref f' ((i + 1 : Nat) : Int) = frameref f (i : Int)) ∧
      (∀ b : Nat, b ≠ frame →
        (append (Value.environment frame base) var val s).2.frames[b]? = s.frames[b]?) := by
  have hlt : frame < s.frames.length := by
    rcases Nat.lt_or_ge frame s.frames.length with h | h
    · exact h
    · simp [List.getElem?_eq_none h] at hf
  rw [append_run frame base var val s f hf]
  refine ⟨appended f var val, rfl, ?_, rfl, ?_, rfl, ?_, ?_, ?_⟩
  · simp only [List.getElem?_set_self hlt]
  · cases hs : f.slot <;> simp [appended, Frame.nslots, hs]
  · cases hs : f.slot <;> simp [appended, frameref, hs]
  · intro i _
    exact frameref_appended f var val i
  · intro b hb
    simp only [List.getElem?_set_ne (Ne.symm hb)]

/-- C16, at a concrete state: `z` is appended to the frame `(x y)` holding `10, 20`. -/
theorem append_shifts_by_one_witness :
    sample_state.frames[0]? = some { vars := list_of [Value.symbol 1, Value.symbol 2],
                                     slot := some [Value.fixnum 10, Value.fixnum 20],
                                     closure := Value.null } ∧
    (append sample_env (Value.symbol 3) (Value.fixnum 5) sample_state).2.frames
      = [{ vars := list_of [Value.symbol 3, Value.symbol 1, Value.symbol 2],
           slot := some [Value.fixnum 5, Value.fixnum 10, Value.fixnum 20],
           closure := Value.null }] ∧
    ∃ f',
      append (Value.environment 0 Value.null) (Value.symbol 3) (Value.fixnum 5) sample_state
        = (Except.ok (), { sample_state with frames := sample_state.frames.set 0 f' }) :=
  ⟨rfl, rfl,
   (append_shifts_by_one sample_state 0 Value.null (Value.symbol 3) (Value.fixnum 5) _
      rfl).imp (fun _ h => h.1)⟩

/-! ## C17: Stack effect of a call -/

/-- C17: whenever `extend_env_fun` returns without error, `regstack` is afterwards what it
was before the call (both temporaries are popped), `argstack` has lost exactly its `argc`
most recent entries and kept the others, and the recorded argument count is 0. -/
theorem extend_env_fun_stack_effect (s : State) (closure e : Value)
    (hok : (extend_env_fun closure s).1 = Except.ok e) :
    (extend_env_fun closure s).2.regstack = s.regstack ∧
    s.argstack.data = (extend_env_fun closure s).2.argstack.data ++ actuals s ∧
    (actuals s).length = s.argstack.argc ∧
    (extend_env_fun closure s).2.argstack.argc = 0 := by
  have hd := extend_env_fun_returns s closure e hok
  cases closure with
  | closure code benv vars numv rargs =>
      obtain ⟨_, _, _, h4⟩ := extend_env_fun_effect s code benv vars numv rargs
      obtain ⟨_, h5⟩ := h4 e hok
      rw [h5]
      refine ⟨rfl, ?_, ?_, rfl⟩
      · simp only [actuals, List.take_append_drop]
      · simp only [actuals, List.length_drop]
        omega
  | _ => simp [extend_env_fun] at hok

/-- C17, at a concrete state: a call with two actuals on top of one older entry. -/
theorem extend_env_fun_stack_effect_witness :
    (extend_env_fun closure_xy (call_state [Value.fixnum 1, Value.fixnum 2])).1
      = Except.ok (Value.environment 1 sample_env) ∧
    (extend_env_fun closure_xy (call_state [Value.fixnum 1, Value.fixnum 2])).2.regstack
      = (call_state [Value.fixnum 1, Value.fixnum 2]).regstack ∧
    (call_state [Value.fixnum 1, Value.fixnum 2]).argstack.data
      = (extend_env_fun closure_xy
            (call_state [Value.fixnum 1, Value.fixnum 2])).2.argstack.data
          ++ actuals (call_state [Value.fixnum 1, Value.fixnum 2]) ∧
    (extend_env_fun closure_xy (call_state [Value.fixnum 1, Value.fixnum 2])).2.argstack.argc
      = 0 :=
  have hok : (extend_env_fun closure_xy (call_state [Value.fixnum 1, Value.fixnum 2])).1
      = Except.ok (Value.environment 1 sample_env) :=
    congrArg Prod.fst (extend_env_fun_fixed_run (call_state [Value.fixnum 1, Value.fixnum 2])
      Value.null sample_env (list_of [Value.symbol 1, Value.symbol 2]) 2 (by decide) (by decide))
  ⟨hok,
   (extend_env_fun_stack_effect (call_state [Value.fixnum 1, Value.fixnum 2]) closure_xy _
      hok).1,
   (extend_env_fun_stack_effect (call_state [Value.fixnum 1, Value.fixnum 2]) closure_xy _
      hok).2.1,
   (extend_env_fun_stack_effect (call_state [Value.fixnum 1, Value.fixnum 2]) closure_xy _
      hok).2.2.2⟩

/-! ## C18: Back-reference before binding -/

/-- C18: in every outcome of `extend_env_fun` on a closure, the new frame carries the
closure as its back-reference; and when the call raises an arity error (fixed case: the
counts differ; rest case: fewer actuals than required) the new environment is the top of
`regstack`, the new frame has the closure's variable list and all of its slots still
unpopulated, the older frames are as they were, and `argstack` holds the arguments and the
count it held before the call. -/
theorem extend_env_fun_back_reference (s : State) (code benv vars : Value) (numv : Nat)
    (rargs : Bool) :
    (∃ f, (extend_env_fun (Value.closure code benv vars numv rargs) s).2.frames[s.frames.length]?
        = some f ∧ f.closure = Value.closure code benv vars numv rargs) ∧
    ((rargs = false ∧ s.argstack.argc ≠ numv) ∨ (rargs = true ∧ s.argstack.argc < numv - 1) →
      (∃ msg, (extend_env_fun (Value.closure code benv vars numv rargs) s).1
        = Except.error (Error.severe msg (Value.closure code benv vars numv rargs))) ∧
      (extend_env_fun (Value.closure code benv vars numv rargs) s).2.regstack
        = s.regstack ++ [Value.environment s.frames.length benv] ∧
      (extend_env_fun (Value.closure code benv vars numv rargs) s).2.frames
        = s.frames ++
            [{ vars := vars,
               slot := if numv = 0 then none else some (List.replicate numv Value.null),
               closure := Value.closure code benv vars numv rargs }] ∧
      (extend_env_fun (Value.closure code benv vars numv rargs) s).2.argstack = s.argstack) := by
  constructor
  · obtain ⟨_, _, ⟨f, h3, _, _, h6⟩, _⟩ := extend_env_fun_effect s code benv vars numv rargs
    exact ⟨f, h3, h6⟩
  · rintro (⟨hr, hn⟩ | ⟨hr, hn⟩)
    · subst hr
      rw [extend_env_fun_fixed_error s code benv vars numv hn]
      exact ⟨⟨_, rfl⟩, rfl, rfl, rfl⟩
    · subst hr
      rw [extend_env_fun_rest_error s code benv vars numv hn]
      exact ⟨⟨_, rfl⟩, rfl, rfl, rfl⟩

/-- C18, at a concrete state: formals `(x y)` and one actual. -/
theorem extend_env_fun_back_reference_witness :
    ((false = false ∧ (call_state [Value.fixnum 1]).argstack.argc ≠ 2) ∨
      (false = true ∧ (call_state [Value.fixnum 1]).argstack.argc < 2 - 1)) ∧
    (extend_env_fun closure_xy (call_state [Value.fixnum 1])).2.regstack
      = (call_state [Value.fixnum 1]).regstack ++ [Value.environment 1 sample_env] ∧
    (extend_env_fun closure_xy (call_state [Value.fixnum 1])).2.frames
      = (call_state [Value.fixnum 1]).frames ++
          [{ vars := list_of [Value.symbol 1, Value.symbol 2],
             slot := if 2 = 0 then none else some (List.replicate 2 Value.null),
             closure := closure_xy }] ∧
    (extend_env_fun closure_xy (call_state [Value.fixnum 1])).2.argstack
      = (call_state [Value.fixnum 1]).argstack :=
  ⟨Or.inl ⟨rfl, by decide⟩,
   ((extend_env_fun_back_reference (call_state [Value.fixnum 1]) Value.null sample_env
      (list_of [Value.symbol 1, Value.symbol 2]) 2 false).2 (Or.inl ⟨rfl, by decide⟩)).2.1,
   ((extend_env_fun_back_reference (call_state [Value.fixnum 1]) Value.null sample_env
      (list_of [Value.symbol 1, Value.symbol 2]) 2 false).2 (Or.inl ⟨rfl, by decide⟩)).2.2.1,
   ((extend_env_fun_back_reference (call_state [Value.fixnum 1]) Value.null sample_env
      (list_of [Value.symbol 1, Value.symbol 2]) 2 false).2 (Or.inl ⟨rfl, by decide⟩)).2.2.2⟩

/-! ## C19: Malformed environment -/

/-- C19: for a value `env` that is neither null nor an environment object,
`set_variable_value(var, val, env)` raises at once and leaves the whole state, every frame
slot and every global binding included, as it was. -/
theorem set_variable_value_rejects (s : State) (var val env : Value)
    (hany : anyp env = true) (henv : envp env = false) :
    set_variable_value var val env s = (Except.error (Error.wrongType env), s) := by
  simp [set_variable_value, hany, henv]

/-- C19, at a concrete state: a fixnum passed as the environment. -/
theorem set_variable_value_rejects_witness :
    anyp (Value.fixnum 5) = true ∧ envp (Value.fixnum 5) = false ∧
    set_variable_value (Value.symbol 3) (Value.fixnum 1) (Value.fixnum 5) sample_state
      = (Except.error (Error.wrongType (Value.fixnum 5)), sample_state) :=
  ⟨by decide, by decide,
   set_variable_value_rejects sample_state (Value.symbol 3) (Value.fixnum 1) (Value.fixnum 5)
     (by decide) (by decide)⟩

/-! ## C20: Formal parameter lists -/

/-- C20 (the code at the failing input): for a proper list of 256 symbols `parse_formals`
returns normally with the 256 symbols as `vars` and no rest flag, but with `numv = 0`: the
`BYTE` counter has wrapped.  A closure built from this result is given, by `extend_env_fun`
called with no actuals, a frame of 0 slots under a variable list of 256 names, and looking up
its first formal indexes outside the slot array. -/
theorem parse_formals_wraps_at_256 :
    parse_formals formals_256 { vars := Value.null, numv := 7, rargs := true }
      = (Except.ok (), { vars := formals_256, numv := 0, rargs := false }) ∧
    list_length formals_256 = 256 ∧
    (extend_env_fun (Value.closure Value.null Value.null formals_256 0 false) initial_state).1
      = Except.ok (Value.environment 0 Value.null) ∧
    (extend_env_fun (Value.closure Value.null Value.null formals_256 0 false)
        initial_state).2.frames
      = [{ vars := formals_256, slot := none,
           closure := Value.closure Value.null Value.null formals_256 0 false }] ∧
    lookup (extend_env_fun (Value.closure Value.null Value.null formals_256 0 false)
        initial_state).2 (Value.symbol 0) (Value.environment 0 Value.null)
      = Except.error Error.undefined := by
  have hs : ∀ x ∈ (List.range 256).map Value.symbol, symbolp x = true := by
    intro x hx
    simp only [List.mem_map] at hx
    obtain ⟨n, _, rfl⟩ := hx
    rfl
  have hrun := extend_env_fun_fixed_run initial_state Value.null Value.null formals_256 0
    (by decide) (by decide)
  refine ⟨?_, ?_, ?_, ?_, ?_⟩
  · rw [formals_256, parse_formals_proper _ _ hs]
    simp
  · rw [formals_256, (proper_list_of _).2.1]
    simp
  · rw [hrun]
    rfl
  · rw [hrun]
    rfl
  · rw [hrun]
    have hsc : scan (Value.symbol 0) formals_256 0 = Except.ok (some 0) := rfl
    simp only [lookup, getframe, extended, initial_state, List.nil_append,
      List.getElem?_cons_zero, hsc]
    rfl

end escheme
